import Mathlib

/-!
# Column-based regression tree maker

A shallow embedding of `booster/tree/xgboost_col_treemaker.hpp` (class
`ColTreeMaker`) and theorems about it.

Conventions of the embedding:

* `float` and `double` values are rationals and arithmetic is exact: the rounding of
  the source's `float` and `double` operations is not modelled, so a theorem about
  sums describes the executions in which no floating-point operation rounds, and
  says so. Machine integers are modelled with their width: casts to `int` and
  `unsigned` reduce modulo 2^32.
* `std::vector` is `List`; reading or writing `v[i]` outside `0 .. v.size()-1`
  is undefined behaviour in the source and is `none` (in `Option`) or
  `Fault.outOfRange` (in `Except Fault`) here.
* `utils::Assert`, `RegTree`, `TreeParamTrain`, the matrix type `FMatrix` and
  `random::Shuffle` are declared in headers that are not part of the sources;
  they are modelled from the specification or taken as parameters.
* The member `tree` is a reference to the caller's `RegTree`. The embedding
  passes that object explicitly: functions that only read it take it as an
  argument, and the constructor, `Make` and `InitData` return the caller's tree
  next to their result, so that its value after the call can be stated even
  when the call fails.
* `omp_get_thread_num()` inside a parallel loop is a function `tid` from the
  iteration index to the worker id; `omp_get_num_threads()` is a parameter
  `nthread`. Every worker writes only its own table and visits its iterations
  in increasing order, so running the iterations in increasing order gives each
  table the same sequence of updates as the parallel loop.
-/

namespace xgboost
namespace booster

/-! ## Failure -/

/-- Ways in which a call can end without a result. -/
inductive Fault where
  /-- A `utils::Assert` whose condition was false, with its message. -/
  | assertError (msg : String)
  /-- A `resize` asked for a negative `int` size (converted to a huge `size_t`). -/
  | lengthError
  /-- An index outside the vector: undefined behaviour in the source. -/
  | outOfRange
deriving DecidableEq

/-- Modelled from the spec: `utils::Assert` (header `utils/xgboost_utils.h`, not among
the sources) surfaces a validation error carrying the message when the condition is
false, and does nothing otherwise. -/
def Assert (exp : Bool) (msg : String) : Except Fault Unit :=
  if exp then .ok () else .error (.assertError msg)

/-! ## External collaborators -/

/-- Modelled from the spec: a node of the Tree Structure (`RegTree` of
`xgboost_tree_model.h`, not among the sources), with the fields the spec lists:
parent (absent for roots), left child, right child, leaf flag, split feature,
split threshold, default direction, weight. -/
structure TreeNode where
  parent_ : Option Nat
  cleft : Option Nat
  cright : Option Nat
  is_leaf : Bool
  split_index : Nat
  split_cond : ℚ
  default_left : Bool
  weight : ℚ
deriving DecidableEq

/-- Modelled from the spec: `IsRoot(nodeId)`, true exactly when the node has no parent. -/
def TreeNode.is_root (n : TreeNode) : Bool := n.parent_.isNone

/-- Modelled from the spec: the Tree Structure, an array of nodes indexed by node id
(`tree[j]`) together with `tree.param.num_roots`, which the source treats as an `int`. -/
structure RegTree where
  nodes : List TreeNode
  num_roots : Int
deriving DecidableEq

/-- Modelled from the spec: the configuration `TreeParamTrain` (`xgboost_tree_model.h`,
not among the sources): the hyperparameters and the two pluggable formulas
`CalcWeight(sumGrad, sumHess, parentWeight)` and `CalcGain(sumGrad, sumHess, parentWeight)`. -/
structure TreeParamTrain where
  max_depth : Int
  min_child_weight : ℚ
  min_split_loss : ℚ
  reg_lambda : ℚ
  CalcWeight : ℚ → ℚ → ℚ → ℚ
  CalcGain : ℚ → ℚ → ℚ → ℚ

/-- Modelled from the spec: the Sparse Column Store (template parameter `FMatrix`):
row count, column count, the column-access flag, and per feature the finite ascending
sequence of (value, row) pairs of the rows that have an explicit value. -/
structure FMatrix where
  NumRow : Nat
  NumCol : Nat
  HaveColAccess : Bool
  GetSortedCol : Nat → List (ℚ × Nat)

/-! ## Machine integers and vectors -/

/-- Conversion of an `unsigned` value to `int` (two's complement, 32 bits). -/
def toInt32 (u : Nat) : Int :=
  if u % 2 ^ 32 < 2 ^ 31 then ((u % 2 ^ 32 : Nat) : Int) else ((u % 2 ^ 32 : Nat) : Int) - 2 ^ 32

/-- Conversion of an `int` value to `unsigned` (reduction modulo 2^32). -/
def toUInt32 (i : Int) : Nat := (i % 2 ^ 32).toNat

/-- The call `v.resize(n, d)` of `std::vector`: keep the first `n` elements, pad with `d`. -/
def resize {α : Type} (xs : List α) (n : Nat) (d : α) : List α :=
  xs.take n ++ List.replicate (n - xs.length) d

/-- The call `v.resize(n, d)` with an `int` size `n`: a negative `n` becomes a huge
`size_t` and the call throws. -/
def resizeInt {α : Type} (xs : List α) (n : Int) (d : α) : Except Fault (List α) :=
  if n < 0 then .error .lengthError else .ok (resize xs n.toNat d)

/-- The read `v[i]` with an `int` index: `none` when `i` is outside the vector. -/
def atIdx {α : Type} (xs : List α) (i : Int) : Option α :=
  match i with
  | Int.ofNat n => xs[n]?
  | Int.negSucc _ => none

/-- The in-place update `v[i] = f(v[i])` with an `int` index: `none` when `i` is
outside the vector. -/
def modifyAtIdx {α : Type} (xs : List α) (i : Int) (f : α → α) : Option (List α) :=
  match i with
  | Int.ofNat n =>
    match xs[n]? with
    | some x => some (xs.set n (f x))
    | none => none
  | Int.negSucc _ => none

/-! ## The records of the tree maker -/

/-- The record `SplitEntry`: statistics that help to decide a split. `sindex` is an
`unsigned` whose top bit is the default-direction flag. -/
structure SplitEntry where
  loss_gain : ℚ
  weight : ℚ
  sindex : Nat
  split_value : ℚ
deriving DecidableEq

/-- The constructor `SplitEntry()`: everything zero. -/
def SplitEntry.ctor : SplitEntry :=
  { loss_gain := 0, weight := 0, sindex := 0, split_value := 0 }

/-- The method `SplitEntry::SetSplit`: pack the feature index and the default direction. -/
def SplitEntry.SetSplit (e : SplitEntry) (split_index : Nat) (split_value : ℚ)
    (default_left : Bool) : SplitEntry :=
  let split_index := if default_left then split_index ||| (1 <<< 31) else split_index
  { e with sindex := split_index, split_value := split_value }

/-- The method `SplitEntry::split_index`: the low 31 bits of `sindex`. -/
def SplitEntry.split_index (e : SplitEntry) : Nat := e.sindex &&& ((1 <<< 31) - 1)

/-- The method `SplitEntry::default_left`: the top bit of `sindex`. -/
def SplitEntry.default_left (e : SplitEntry) : Bool := (e.sindex >>> 31) != 0

/-- The record `ThreadEntry`: per worker and per node scratch statistics. -/
structure ThreadEntry where
  sum_grad : ℚ
  sum_hess : ℚ
  last_fvalue : ℚ
  best : SplitEntry
deriving DecidableEq

/-- The constructor `ThreadEntry()`: the two sums are zero and `best` is a fresh
`SplitEntry`; the source leaves `last_fvalue` uninitialised, and `junk` stands for
whatever value it holds. -/
def ThreadEntry.ctor (junk : ℚ) : ThreadEntry :=
  { sum_grad := 0, sum_hess := 0, last_fvalue := junk, best := SplitEntry.ctor }

/-- The data members of `ColTreeMaker` other than the reference to the tree. The
worker tables `stemp` hold `ThreadEntry` records, as every use of `stemp` in the
source and its comment require (its declaration names `SplitEntry`). -/
structure ColTreeMaker where
  qexpand : List Int
  feat_index : List Int
  position : List Int
  snode : List SplitEntry
  stemp : List (List ThreadEntry)
  param : TreeParamTrain
  grad : List ℚ
  hess : List ℚ
  smat : FMatrix
  root_index : List Nat

/-! ## Construction and the public entry point -/

/-- The constructor `ColTreeMaker::ColTreeMaker`: store the references, then the four
assertions in source order. The second component is the caller's tree after the call. -/
def ColTreeMaker.ctor (tree : RegTree) (param : TreeParamTrain) (grad hess : List ℚ)
    (smat : FMatrix) (root_index : List Nat) : Except Fault ColTreeMaker × RegTree :=
  (do
    Assert (grad.length == hess.length) "booster:invalid input"
    Assert (smat.NumRow == hess.length) "booster:invalid input"
    Assert (root_index.length == 0 || root_index.length == hess.length) "booster:invalid input"
    Assert smat.HaveColAccess "ColTreeMaker: need column access matrix"
    pure { qexpand := [], feat_index := [], position := [], snode := [], stemp := [],
           param := param, grad := grad, hess := hess, smat := smat,
           root_index := root_index },
   tree)

/-- The method `Make`: its body is empty in the source. The second component is the
caller's tree after the call. -/
def ColTreeMaker.Make (b : ColTreeMaker) (tree : RegTree) :
    Except Fault ColTreeMaker × RegTree :=
  (.ok b, tree)

/-! ## Statistics aggregation -/

/-- The assignment `e.sum_grad = e.sum_hess = 0.0f` of `CleanSTemp`. -/
def ThreadEntry.zeroSums (e : ThreadEntry) : ThreadEntry :=
  { e with sum_grad := 0, sum_hess := 0 }

/-- The inner loop of `CleanSTemp` on one worker table: for each `j`, zero the sums
of entry `qexpand[j]`. -/
def ColTreeMaker.CleanSTemp.inner (row : List ThreadEntry) :
    List Int → Option (List ThreadEntry)
  | [] => some row
  | q :: qs => (modifyAtIdx row q ThreadEntry.zeroSums).bind
      (fun row1 => ColTreeMaker.CleanSTemp.inner row1 qs)

/-- The outer loop of `CleanSTemp` over the worker tables `stemp[i]`. -/
def ColTreeMaker.CleanSTemp.outer (qexpand : List Int) :
    List (List ThreadEntry) → Option (List (List ThreadEntry))
  | [] => some []
  | row :: rest => (ColTreeMaker.CleanSTemp.inner row qexpand).bind
      (fun row1 => (ColTreeMaker.CleanSTemp.outer qexpand rest).map (fun rest1 => row1 :: rest1))

/-- The method `CleanSTemp(qexpand)`. -/
def ColTreeMaker.CleanSTemp (b : ColTreeMaker) (qexpand : List Int) : Option ColTreeMaker :=
  (ColTreeMaker.CleanSTemp.outer qexpand b.stemp).map (fun st => { b with stemp := st })

/-- The two additions `sum_grad += grad[i]` and `sum_hess += hess[i]` on one entry. -/
def ThreadEntry.addStat (g h : ℚ) (e : ThreadEntry) : ThreadEntry :=
  { e with sum_grad := e.sum_grad + g, sum_hess := e.sum_hess + h }

/-- The body of the first loop of `UpdateSNode` for an active instance: add its
gradient and hessian to entry `stemp[tid][pos]`. -/
def ColTreeMaker.UpdateSNode.add (stemp : List (List ThreadEntry)) (tid : Nat) (pos : Int)
    (g h : ℚ) : Option (List (List ThreadEntry)) :=
  match stemp[tid]? with
  | some row => (modifyAtIdx row pos (ThreadEntry.addStat g h)).map (fun row1 => stemp.set tid row1)
  | none => none

/-- The first loop of `UpdateSNode` (step 1, find sum statistics), from instance `i`
on; the list holds `position[i], position[i+1], ...`. Instances with a negative
position are skipped before anything of theirs is read. -/
def ColTreeMaker.UpdateSNode.step1 (tid : Nat → Nat) (grad hess : List ℚ) :
    Nat → List Int → List (List ThreadEntry) → Option (List (List ThreadEntry))
  | _, [], st => some st
  | i, p :: ps, st =>
    if p < 0 then ColTreeMaker.UpdateSNode.step1 tid grad hess (i + 1) ps st
    else
      match grad[i]?, hess[i]? with
      | some g, some h => (ColTreeMaker.UpdateSNode.add st (tid i) p g h).bind
          (fun st1 => ColTreeMaker.UpdateSNode.step1 tid grad hess (i + 1) ps st1)
      | _, _ => none

/-- The reduction over the worker tables inside the second loop of `UpdateSNode`:
the local `sum_grad`, `sum_hess` after adding `stemp[tid][j]` for every `tid`. -/
def ColTreeMaker.UpdateSNode.total (j : Nat) :
    List (List ThreadEntry) → ℚ × ℚ → Option (ℚ × ℚ)
  | [], acc => some acc
  | row :: rest, acc =>
    match row[j]? with
    | some e => ColTreeMaker.UpdateSNode.total j rest (acc.1 + e.sum_grad, acc.2 + e.sum_hess)
    | none => none

/-- Modelled from the spec: `Parent(nodeId)`, the id of the parent of a node that is
not a root (the source calls `tree[j].parent()` only for such nodes). -/
def TreeNode.parent (n : TreeNode) : Nat := n.parent_.getD 0

/-- The body of the second loop of `UpdateSNode` for one value of `j`: reduce the
tables at index `j`, then set `snode[j]` according to `tree[j]`. -/
def ColTreeMaker.UpdateSNode.node (param : TreeParamTrain) (tree : RegTree)
    (stemp : List (List ThreadEntry)) (j : Nat) (snode : List SplitEntry) :
    Option (List SplitEntry) :=
  match ColTreeMaker.UpdateSNode.total j stemp (0, 0) with
  | none => none
  | some (sum_grad, sum_hess) =>
    match tree.nodes[j]? with
    | none => none
    | some nd =>
      if !nd.is_root then
        match snode[nd.parent]? with
        | none => none
        | some pe =>
          let pweight := pe.weight
          match snode[j]? with
          | none => none
          | some e => some (snode.set j { e with weight := param.CalcWeight sum_grad sum_hess pweight })
      else
        match snode[j]? with
        | none => none
        | some e => some (snode.set j { e with weight := param.CalcWeight sum_grad sum_hess 0,
                                               loss_gain := param.CalcGain sum_grad sum_hess 0 })

/-- The second loop of `UpdateSNode`: `n` more iterations starting at index `j`. -/
def ColTreeMaker.UpdateSNode.step2 (param : TreeParamTrain) (tree : RegTree)
    (stemp : List (List ThreadEntry)) : Nat → Nat → List SplitEntry → Option (List SplitEntry)
  | 0, _, sn => some sn
  | n + 1, j, sn => (ColTreeMaker.UpdateSNode.node param tree stemp j sn).bind
      (fun sn1 => ColTreeMaker.UpdateSNode.step2 param tree stemp n (j + 1) sn1)

/-- The bound `ndata = static_cast<unsigned>( position.size() )` of the first loop of
`UpdateSNode`: the number of instances reduced modulo 2^32. -/
def ColTreeMaker.UpdateSNode.ndata (b : ColTreeMaker) : Nat := b.position.length % 2 ^ 32

/-- The method `UpdateSNode(qexpand)`: clear the queued entries, accumulate the active
instances `0 .. ndata-1` into their workers' tables, then for
`j = 0 .. qexpand.size()-1` reduce the tables at index `j` and set `snode[j]`. The
argument `qexpand` is the method's parameter, as in the source, not the member of the
same name. -/
def ColTreeMaker.UpdateSNode (b : ColTreeMaker) (tid : Nat → Nat) (tree : RegTree)
    (qexpand : List Int) : Option ColTreeMaker :=
  (b.CleanSTemp qexpand).bind fun b1 =>
  (ColTreeMaker.UpdateSNode.step1 tid b1.grad b1.hess 0
    (b1.position.take (ColTreeMaker.UpdateSNode.ndata b1)) b1.stemp).bind fun st =>
  (ColTreeMaker.UpdateSNode.step2 b1.param tree st qexpand.length 0 b1.snode).map fun sn =>
  { b1 with stemp := st, snode := sn }

/-- The per-index totals `(sum_grad, sum_hess)` that the second loop of
`UpdateSNode(qexpand)` computes for `j = 0 .. qexpand.size()-1`, in order. -/
def ColTreeMaker.UpdateSNode.totals (b : ColTreeMaker) (tid : Nat → Nat)
    (qexpand : List Int) : Option (List (ℚ × ℚ)) :=
  (b.CleanSTemp qexpand).bind fun b1 =>
  (ColTreeMaker.UpdateSNode.step1 tid b1.grad b1.hess 0
    (b1.position.take (ColTreeMaker.UpdateSNode.ndata b1)) b1.stemp).bind fun st =>
  (List.range qexpand.length).mapM (fun j => ColTreeMaker.UpdateSNode.total j st (0, 0))

/-! ## Split search -/

/-- The body of the loop of `FindSplit`: it reads `fid = feat_index[i]` and the worker
id and does nothing with them. -/
def ColTreeMaker.FindSplit.body (tid : Nat → Nat) (b : ColTreeMaker) (i : Nat) :
    Option ColTreeMaker :=
  match b.feat_index[i]? with
  | some f =>
    let _fid := toUInt32 f
    let _tid := tid i
    some b
  | none => none

/-- The loop of `FindSplit`: `n` more iterations starting at index `i`. -/
def ColTreeMaker.FindSplit.loop (tid : Nat → Nat) : Nat → Nat → ColTreeMaker → Option ColTreeMaker
  | 0, _, b => some b
  | n + 1, i, b => (ColTreeMaker.FindSplit.body tid b i).bind
      (fun b1 => ColTreeMaker.FindSplit.loop tid n (i + 1) b1)

/-- The method `FindSplit(depth)`: the loop runs for
`nsize = static_cast<unsigned>( feat_index.size() )` iterations. -/
def ColTreeMaker.FindSplit (b : ColTreeMaker) (tid : Nat → Nat) (_depth : Int) :
    Option ColTreeMaker :=
  ColTreeMaker.FindSplit.loop tid (b.feat_index.length % 2 ^ 32) 0 b

/-! ## Initialisation -/

/-- The loop of `InitData` over a non-empty `root_index`, from index `i` on: write
`position[i] = root_index[i]`, then assert that the root index is below `num_roots`. -/
def ColTreeMaker.InitData.roots (num_roots : Int) :
    Nat → List Nat → List Int → Except Fault (List Int)
  | _, [], pos => .ok pos
  | i, r :: rs, pos =>
    if i < pos.length then
      let pos1 := pos.set i (toInt32 r)
      (Assert (decide (r < toUInt32 num_roots)) "root index exceed setting").bind
        (fun _ => ColTreeMaker.InitData.roots num_roots (i + 1) rs pos1)
    else .error .outOfRange

/-- The method `InitData`. `Shuffle` is `random::Shuffle` (not among the sources),
`nthread` the value of `omp_get_num_threads()`, `junk` the content of the
uninitialised field of a fresh `ThreadEntry`. The column count is cast to `int`
(`ncol`) before the loop over the columns, so a negative `ncol` runs no iteration.
The second component is the caller's tree after the call. -/
def ColTreeMaker.InitData (b : ColTreeMaker) (Shuffle : List Int → List Int) (nthread : Nat)
    (junk : ℚ) (tree : RegTree) : Except Fault ColTreeMaker × RegTree :=
  (do
    let position := resize b.position b.grad.length 0
    let position ←
      if b.root_index.length == 0 then
        pure (List.replicate position.length (0 : Int))
      else
        ColTreeMaker.InitData.roots tree.num_roots 0 b.root_index position
    let ncol := toInt32 b.smat.NumCol
    let feat_index := Shuffle (b.feat_index ++
      ((List.range ncol.toNat).filter (fun i => !(b.smat.GetSortedCol i).isEmpty)).map Int.ofNat)
    let stemp := resize b.stemp nthread []
    let stemp ← stemp.mapM (fun t => resizeInt t tree.num_roots (ThreadEntry.ctor junk))
    let snode ← resizeInt b.snode tree.num_roots SplitEntry.ctor
    let qexpand := (List.range tree.num_roots.toNat).map Int.ofNat
    pure { b with position := position, feat_index := feat_index, stemp := stemp,
                  snode := snode, qexpand := qexpand },
   tree)

/-! ## Quantities of the specification -/

/-- The sum of `vals[i]` over exactly the instances `i` with `position[i] == n`. -/
def nodeSum (position : List Int) (vals : List ℚ) (n : Int) : ℚ :=
  (((position.zip vals).filter (fun pv => pv.1 == n)).map Prod.snd).sum

/-- The sum of `vals[i]` over the active instances, those with `position[i] >= 0`. -/
def activeSum (position : List Int) (vals : List ℚ) : ℚ :=
  (((position.zip vals).filter (fun pv => decide (0 ≤ pv.1))).map Prod.snd).sum

/-- Modelled from the spec: the loss gain of the split of node `n` on one feature at
threshold `thr`, "left loss + right loss − parent loss": the left side holds the
instances of the node whose explicit value of the feature is below the threshold,
the right side the rest of the node. `col` is the feature's sorted column. -/
def splitLossGain (b : ColTreeMaker) (n : Int) (col : List (ℚ × Nat)) (thr : ℚ) : ℚ :=
  let left := col.filter (fun e => decide (e.1 < thr) && (b.position[e.2]? == some n))
  let gl := (left.map (fun e => (b.grad[e.2]?).getD 0)).sum
  let hl := (left.map (fun e => (b.hess[e.2]?).getD 0)).sum
  let g := nodeSum b.position b.grad n
  let h := nodeSum b.position b.hess n
  b.param.CalcGain gl hl 0 + b.param.CalcGain (g - gl) (h - hl) 0 - b.param.CalcGain g h 0

/-- The root of the tree is a split node on feature `fid` whose threshold lies
strictly between `lo` and `hi`. -/
def rootSplitsBetween (tree : RegTree) (fid : Nat) (lo hi : ℚ) : Prop :=
  ∃ nd, tree.nodes[0]? = some nd ∧ nd.is_leaf = false ∧ nd.split_index = fid ∧
    lo < nd.split_cond ∧ nd.split_cond < hi

/-! ## Concrete inputs -/

/-- A leaf with the given parent and no split. -/
def leafNode (parent : Option Nat) : TreeNode :=
  { parent_ := parent, cleft := none, cright := none, is_leaf := true, split_index := 0,
    split_cond := 0, default_left := false, weight := 0 }

/-- A split node on feature 0 with the given parent and children. -/
def splitNode (parent : Option Nat) (l r : Nat) (thr : ℚ) : TreeNode :=
  { parent_ := parent, cleft := some l, cright := some r, is_leaf := false, split_index := 0,
    split_cond := thr, default_left := false, weight := 0 }

/-- A fresh tree with a single root, which is a leaf. -/
def freshTree : RegTree := { nodes := [leafNode none], num_roots := 1 }

/-- The formulas of L2 regularisation with strength `lam`: weight `-G / (H + lam)` and
gain `G^2 / (H + lam)`, neither using the parent's weight. -/
def l2Param (depth : Int) (lam : ℚ) : TreeParamTrain :=
  { max_depth := depth, min_child_weight := 0, min_split_loss := 0, reg_lambda := lam,
    CalcWeight := fun g h _ => -g / (h + lam),
    CalcGain := fun g h _ => g ^ 2 / (h + lam) }

/-- A weight formula that shrinks towards the parent's weight, `(p - G) / (H + 1)`,
with the gain of `l2Param`. -/
def coupledParam : TreeParamTrain :=
  { max_depth := 2, min_child_weight := 0, min_split_loss := 0, reg_lambda := 1,
    CalcWeight := fun g h p => (p - g) / (h + 1),
    CalcGain := fun g h _ => g ^ 2 / (h + 1) }

/-- The column store of the four-instance scenario: one feature with the explicit
values 0.1, 0.2, 0.3, 0.4 for rows 0..3. -/
def scenarioMat : FMatrix :=
  { NumRow := 4, NumCol := 1, HaveColAccess := true,
    GetSortedCol := fun i => if i = 0 then [(1/10, 0), (2/10, 1), (3/10, 2), (4/10, 3)] else [] }

/-- The gradients of the four-instance scenario. -/
def scenarioGrad : List ℚ := [-1, 1, -1, 1]

/-- The hessians of the four-instance scenario. -/
def scenarioHess : List ℚ := [1, 1, 1, 1]

/-- The builder of the four-instance scenario as the constructor leaves it: maximum
depth 1, zero regularisation, zero minimum child weight, no root assignment. -/
def scenarioBuilder : ColTreeMaker :=
  { qexpand := [], feat_index := [], position := [], snode := [], stemp := [],
    param := l2Param 1 0, grad := scenarioGrad, hess := scenarioHess, smat := scenarioMat,
    root_index := [] }

/-- The scenario's builder after `InitData` (one worker) and `UpdateSNode` at depth 0:
every instance at the root, whose statistics are `G = 0`, `H = 4`. -/
def scenarioDepth0 : ColTreeMaker :=
  { scenarioBuilder with
    qexpand := [0], feat_index := [0], position := [0, 0, 0, 0],
    snode := [SplitEntry.ctor],
    stemp := [[{ sum_grad := 0, sum_hess := 4, last_fvalue := 0, best := SplitEntry.ctor }]] }

/-- A one-row column store with column access. -/
def oneRowMat : FMatrix :=
  { NumRow := 1, NumCol := 1, HaveColAccess := true,
    GetSortedCol := fun i => if i = 0 then [(1, 0)] else [] }

/-- The builder that the constructor returns for `grad = hess = [1]`, the one-row
column store and the root assignment `[5]`. -/
def badRootBuilder : ColTreeMaker :=
  { qexpand := [], feat_index := [], position := [], snode := [], stemp := [],
    param := l2Param 1 0, grad := [1], hess := [1], smat := oneRowMat, root_index := [5] }

/-- A forest of two roots, both leaves. -/
def twoRootTree : RegTree := { nodes := [leafNode none, leafNode none], num_roots := 2 }

/-- The builder that the constructor returns for three instances with gradients 1, 2, 4,
unit hessians, the three-row column store and the root assignment `[0, 1, 0]`. -/
def rootedBuilder : ColTreeMaker :=
  { qexpand := [], feat_index := [], position := [], snode := [], stemp := [],
    param := l2Param 1 0, grad := [1, 2, 4], hess := [1, 1, 1],
    smat := { NumRow := 3, NumCol := 1, HaveColAccess := true,
              GetSortedCol := fun i => if i = 0 then [(1, 0), (2, 1), (3, 2)] else [] },
    root_index := [0, 1, 0] }

/-- A one-row column store that reports 2^31 columns, of which column 0 has an entry. -/
def wideMat : FMatrix :=
  { NumRow := 1, NumCol := 2 ^ 31, HaveColAccess := true,
    GetSortedCol := fun i => if i = 0 then [(1, 0)] else [] }

/-- The builder that the constructor returns for one instance and `wideMat`. -/
def wideBuilder : ColTreeMaker :=
  { qexpand := [], feat_index := [], position := [], snode := [], stemp := [],
    param := l2Param 1 0, grad := [1], hess := [1], smat := wideMat, root_index := [] }

/-- A column store of `N` rows with one column, in which row 0 has an entry. -/
def uniformMat (N : Nat) : FMatrix :=
  { NumRow := N, NumCol := 1, HaveColAccess := true,
    GetSortedCol := fun i => if i = 0 then [(1, 0)] else [] }

/-- The builder that the constructor returns for `N` instances that all have gradient 1
and hessian 1, with L2 strength 1 and no root assignment. -/
def uniformBuilder (N : Nat) : ColTreeMaker :=
  { qexpand := [], feat_index := [], position := [], snode := [], stemp := [],
    param := l2Param 1 1, grad := List.replicate N 1, hess := List.replicate N 1,
    smat := uniformMat N, root_index := [] }

/-- A three-row column store with column access. -/
def threeRowMat : FMatrix :=
  { NumRow := 3, NumCol := 1, HaveColAccess := true,
    GetSortedCol := fun i => if i = 0 then [(1, 0), (2, 1), (3, 2)] else [] }

/-- A tree at depth 1: the root 0 was split into the leaves 1 and 2. -/
def depth1Tree : RegTree :=
  { nodes := [splitNode none 1 2 (3/2), leafNode (some 0), leafNode (some 0)], num_roots := 1 }

/-- A builder at depth 1 over `depth1Tree`, one worker: three instances with gradients
1, 2, 4 and unit hessians; the worker table and `snode` hold the root's statistics from
depth 0 (`G = 7`, `H = 3`) and fresh entries for the two new nodes. -/
def depth1Builder (param : TreeParamTrain) (position : List Int) : ColTreeMaker :=
  { qexpand := [1, 2], feat_index := [0], position := position,
    snode := [{ loss_gain := 49/4, weight := -7/4, sindex := 0, split_value := 0 },
              SplitEntry.ctor, SplitEntry.ctor],
    stemp := [[{ sum_grad := 7, sum_hess := 3, last_fvalue := 0, best := SplitEntry.ctor },
               ThreadEntry.ctor 0, ThreadEntry.ctor 0]],
    param := param, grad := [1, 2, 4], hess := [1, 1, 1], smat := threeRowMat,
    root_index := [] }

/-- The depth-1 builder with one instance at each of the nodes 0, 1 and 2. -/
def depth1Spread : ColTreeMaker := depth1Builder (l2Param 2 1) [0, 1, 2]

/-- The depth-1 builder of `depth1Builder` with two workers instead of one: the root's
statistics from depth 0 are spread over the two tables, `(1, 1)` and `(6, 2)`. -/
def depth1TwoWorkers (param : TreeParamTrain) (position : List Int) : ColTreeMaker :=
  { depth1Builder param position with
    stemp := [[{ sum_grad := 1, sum_hess := 1, last_fvalue := 0, best := SplitEntry.ctor },
               ThreadEntry.ctor 0, ThreadEntry.ctor 0],
              [{ sum_grad := 6, sum_hess := 2, last_fvalue := 0, best := SplitEntry.ctor },
               ThreadEntry.ctor 0, ThreadEntry.ctor 0]] }

/-- A tree at depth 2: the root 0 was split into 1 and 2, node 1 stayed a leaf and
node 2 was split into the leaves 3 and 4. -/
def depth2Tree : RegTree :=
  { nodes := [splitNode none 1 2 (3/2), leafNode (some 0), splitNode (some 0) 3 4 (5/2),
              leafNode (some 2), leafNode (some 2)],
    num_roots := 1 }

/-- A builder at depth 2 over `depth2Tree`, one worker: instance 0 rests at the leaf 1,
instances 1 and 2 moved to the new nodes 3 and 4; the worker table and `snode` hold the
statistics of depths 0 and 1 and fresh entries for the two new nodes. -/
def depth2Builder : ColTreeMaker :=
  { qexpand := [3, 4], feat_index := [0], position := [1, 3, 4],
    snode := [{ loss_gain := 49/4, weight := -7/4, sindex := 0, split_value := 0 },
              { loss_gain := 0, weight := -1/2, sindex := 0, split_value := 0 },
              { loss_gain := 0, weight := -2, sindex := 0, split_value := 0 },
              SplitEntry.ctor, SplitEntry.ctor],
    stemp := [[{ sum_grad := 7, sum_hess := 3, last_fvalue := 0, best := SplitEntry.ctor },
               { sum_grad := 1, sum_hess := 1, last_fvalue := 0, best := SplitEntry.ctor },
               { sum_grad := 6, sum_hess := 2, last_fvalue := 0, best := SplitEntry.ctor },
               ThreadEntry.ctor 0, ThreadEntry.ctor 0]],
    param := l2Param 2 1, grad := [1, 2, 4], hess := [1, 1, 1], smat := threeRowMat,
    root_index := [] }

/-- Modelled from the spec: the outcome that the split search promises for node `n`.
Either some candidate record kept for the node (its `snode` entry or the `best` of
one of its worker entries) has a `loss_gain` at least that of every split of the node
on a feature of `feat_index` at any threshold, or the node counts as having no
candidate and indeed no such split has a positive gain. -/
def splitSearchDone (b : ColTreeMaker) (n : Nat) : Prop :=
  (∃ e : SplitEntry,
      (b.snode[n]? = some e ∨ ∃ row ∈ b.stemp, ∃ t, row[n]? = some t ∧ t.best = e) ∧
      ∀ f ∈ b.feat_index, ∀ thr : ℚ,
        splitLossGain b n (b.smat.GetSortedCol f.toNat) thr ≤ e.loss_gain) ∨
  (∀ f ∈ b.feat_index, ∀ thr : ℚ, splitLossGain b n (b.smat.GetSortedCol f.toNat) thr ≤ 0)

/-! ## Auxiliary quantities -/

/-- The sum over the worker tables of the field `f` of entry `j` (a table without
an entry `j` contributes nothing). -/
def colSum (f : ThreadEntry → ℚ) (st : List (List ThreadEntry)) (j : Nat) : ℚ :=
  (st.map (fun row => ((row[j]?).map f).getD 0)).sum

/-- The size of worker table `t`, taken as 0 when there is no such table. -/
def rowLen (st : List (List ThreadEntry)) (t : Nat) : Nat :=
  ((st.map List.length)[t]?).getD 0

/-- Every index that `UpdateSNode(qexpand)` uses lies inside its vector: the queued
ids and the indices `0 .. qexpand.size()-1` in every worker table, for each active
instance its gradient, its hessian and entry `position[i]` of its worker's table, and
for each `j < qexpand.size()` the node `tree[j]`, the entry `snode[j]` and, when
`tree[j]` is not a root, the entry of its parent. -/
def ColTreeMaker.UpdateSNode.InRange (b : ColTreeMaker) (tid : Nat → Nat) (tree : RegTree)
    (qexpand : List Int) : Prop :=
  (∀ row ∈ b.stemp, (∀ q ∈ qexpand, 0 ≤ q ∧ q.toNat < row.length) ∧
      qexpand.length ≤ row.length) ∧
  (∀ i, ∀ hi : i < b.position.length, 0 ≤ b.position[i] →
      i < b.grad.length ∧ i < b.hess.length ∧
      (b.position[i]).toNat < rowLen b.stemp (tid i)) ∧
  qexpand.length ≤ tree.nodes.length ∧ qexpand.length ≤ b.snode.length ∧
  (∀ j, ∀ hj : j < tree.nodes.length, j < qexpand.length →
      (tree.nodes[j]).is_root = false → (tree.nodes[j]).parent < b.snode.length)

/-- The builder that `InitData` returns when it succeeds on a builder whose
`root_index` is empty or as long as `grad`: the positions are all 0 or the root
assignment, the columns with an entry shuffled, `nthread` worker tables and `snode`
resized to `num_roots`, and the queue `0 .. num_roots-1`. -/
def ColTreeMaker.InitData.result (b : ColTreeMaker) (Shuffle : List Int → List Int)
    (nthread : Nat) (junk : ℚ) (tree : RegTree) : ColTreeMaker :=
  { b with
    position := if b.root_index.length == 0 then List.replicate b.grad.length (0 : Int)
                else b.root_index.map toInt32,
    feat_index := Shuffle (b.feat_index ++
      ((List.range (toInt32 b.smat.NumCol).toNat).filter
        (fun i => !(b.smat.GetSortedCol i).isEmpty)).map Int.ofNat),
    stemp := (resize b.stemp nthread []).map
      (fun t => resize t tree.num_roots.toNat (ThreadEntry.ctor junk)),
    snode := resize b.snode tree.num_roots.toNat SplitEntry.ctor,
    qexpand := (List.range tree.num_roots.toNat).map Int.ofNat }

/-! # Theorems -/

/-! ## Construction, `Make` and `FindSplit` -/

/-- C1: constructing a `ColTreeMaker` succeeds exactly when the four asserted conditions
hold (equal lengths of `grad` and `hess`, `NumRow` equal to that length, `root_index`
empty or of that length, column access available); otherwise it fails with a
validation error; in both cases the caller's tree is what it was. -/
theorem ColTreeMaker.ctor_succeeds_iff (tree : RegTree) (param : TreeParamTrain)
    (grad hess : List ℚ) (smat : FMatrix) (root_index : List Nat) :
    ((∃ b, (ColTreeMaker.ctor tree param grad hess smat root_index).1 = .ok b) ↔
      (grad.length = hess.length ∧ smat.NumRow = hess.length ∧
        (root_index.length = 0 ∨ root_index.length = hess.length) ∧
        smat.HaveColAccess = true)) ∧
    ((∃ b, (ColTreeMaker.ctor tree param grad hess smat root_index).1 = .ok b) ∨
      (∃ msg, (ColTreeMaker.ctor tree param grad hess smat root_index).1 =
        .error (.assertError msg))) ∧
    (ColTreeMaker.ctor tree param grad hess smat root_index).2 = tree := by
  by_cases h1 : grad.length = hess.length <;>
  by_cases h2 : smat.NumRow = hess.length <;>
  by_cases h3 : (root_index = [] ∨ root_index.length = hess.length) <;>
  by_cases h4 : smat.HaveColAccess = true <;>
  simp [ColTreeMaker.ctor, Assert, bind, Except.bind, pure, Except.pure, h1, h2, h3, h4,
    List.length_eq_zero]

/-- C2: on the input `grad = hess = [1]`, one row with column access, one root and
`root_index = [5]`, the constructor succeeds and `Make` returns normally with the tree
untouched, although `InitData` on that builder stops with the assertion
"root index exceed setting". -/
theorem ColTreeMaker.Make_accepts_bad_root :
    ColTreeMaker.ctor freshTree (l2Param 1 0) [1] [1] oneRowMat [5] =
      (.ok badRootBuilder, freshTree) ∧
    badRootBuilder.Make freshTree = (.ok badRootBuilder, freshTree) ∧
    badRootBuilder.InitData id 1 0 freshTree =
      (.error (.assertError "root index exceed setting"), freshTree) := by
  refine ⟨?_, ?_, ?_⟩ <;> with_unfolding_all rfl

/-- C3: on the four-instance scenario the constructor accepts the input and `Make`,
whose body is empty, returns normally with the tree as it was: the root is not a split
node on feature 0 with a threshold strictly between 0.2 and 0.3, it is still a leaf. -/
theorem ColTreeMaker.Make_scenario_root_not_split :
    ColTreeMaker.ctor freshTree (l2Param 1 0) scenarioGrad scenarioHess scenarioMat [] =
      (.ok scenarioBuilder, freshTree) ∧
    scenarioBuilder.Make freshTree = (.ok scenarioBuilder, freshTree) ∧
    ¬ rootSplitsBetween (scenarioBuilder.Make freshTree).2 0 (2/10) (3/10) := by
  refine ⟨by with_unfolding_all rfl, rfl, ?_⟩
  rintro ⟨nd, hnd, hleaf, -⟩
  have h : (scenarioBuilder.Make freshTree).2.nodes[0]? = some (leafNode none) := rfl
  rw [h] at hnd
  cases hnd
  simp [leafNode] at hleaf

/-- C4: in the four-instance scenario after `InitData` and `UpdateSNode` at depth 0,
`FindSplit`, whose loop body only reads `fid` and `tid`, returns the state it was
given, and in that state the queued root has neither a winning candidate nor a
justified "no candidate": every candidate record has `loss_gain` 0 while the split of
feature 0 at 0.15 has gain 4/3. -/
theorem ColTreeMaker.FindSplit_scenario_no_winner :
    (scenarioBuilder.InitData id 1 0 freshTree).1.toOption.bind
        (fun b => b.UpdateSNode (fun _ => 0) freshTree b.qexpand) = some scenarioDepth0 ∧
    scenarioDepth0.FindSplit (fun _ => 0) 0 = some scenarioDepth0 ∧
    ¬ splitSearchDone scenarioDepth0 0 := by
  have hgain : splitLossGain scenarioDepth0 ((0 : Nat) : Int) (scenarioMat.GetSortedCol 0)
      (3/20) = 4/3 := by
    with_unfolding_all decide
  have hmem : (0 : Int) ∈ scenarioDepth0.feat_index := by
    simp [scenarioDepth0]
  refine ⟨by with_unfolding_all rfl, by with_unfolding_all rfl, ?_⟩
  rintro (⟨e, he, hall⟩ | hnone)
  · have hle := hall 0 hmem (3/20)
    have hcol : scenarioDepth0.smat.GetSortedCol (0 : Int).toNat = scenarioMat.GetSortedCol 0 := rfl
    rw [hcol, hgain] at hle
    have hz : e.loss_gain = 0 := by
      rcases he with he | ⟨row, hrow, t, ht, hbest⟩
      · have h0 : scenarioDepth0.snode[0]? = some SplitEntry.ctor := rfl
        rw [h0] at he
        cases he
        rfl
      · have hrows : row = [⟨0, 4, 0, SplitEntry.ctor⟩] := by
          simpa [scenarioDepth0] using hrow
        subst hrows
        simp at ht
        subst ht
        subst hbest
        rfl
    rw [hz] at hle
    norm_num at hle
  · have hle := hnone 0 hmem (3/20)
    have hcol : scenarioDepth0.smat.GetSortedCol (0 : Int).toNat = scenarioMat.GetSortedCol 0 := rfl
    rw [hcol, hgain] at hle
    norm_num at hle

/-! ## Vectors -/

theorem modifyAtIdx_natCast {α : Type} (xs : List α) (n : Nat) (f : α → α) :
    modifyAtIdx xs (n : Int) f = (xs[n]?).map (fun x => xs.set n (f x)) := by
  show modifyAtIdx xs (Int.ofNat n) f = _
  simp only [modifyAtIdx]
  cases xs[n]? <;> rfl

theorem modifyAtIdx_eq_some {α : Type} {xs ys : List α} {i : Int} {f : α → α}
    (h : modifyAtIdx xs i f = some ys) :
    ∃ (n : Nat) (x : α), i = (n : Int) ∧ xs[n]? = some x ∧ ys = xs.set n (f x) := by
  cases i with
  | ofNat n =>
    rw [show Int.ofNat n = (n : Int) from rfl, modifyAtIdx_natCast] at h
    cases hx : xs[n]? with
    | none => simp [hx] at h
    | some x =>
      simp only [hx, Option.map_some', Option.some.injEq] at h
      exact ⟨n, x, rfl, hx, h.symm⟩
  | negSucc n => simp [modifyAtIdx] at h

theorem modifyAtIdx_of_lt {α : Type} (xs : List α) (i : Int) (f : α → α)
    (h0 : 0 ≤ i) (h : i.toNat < xs.length) :
    modifyAtIdx xs i f = some (xs.set i.toNat (f (xs[i.toNat]))) := by
  obtain ⟨n, rfl⟩ := Int.eq_ofNat_of_zero_le h0
  rw [modifyAtIdx_natCast]
  simp only [Int.toNat_ofNat] at h ⊢
  rw [List.getElem?_eq_getElem h]
  rfl

theorem sum_map_set {α : Type} (F : α → ℚ) :
    ∀ (l : List α) (t : Nat) (a b : α), l[t]? = some a →
      ((l.set t b).map F).sum = (l.map F).sum + (F b - F a)
  | [], t, a, b, h => by simp at h
  | x :: l, 0, a, b, h => by
    simp only [List.getElem?_cons_zero, Option.some.injEq] at h
    subst h
    simp only [List.set_cons_zero, List.map_cons, List.sum_cons]
    ring
  | x :: l, t + 1, a, b, h => by
    simp only [List.getElem?_cons_succ] at h
    simp only [List.set_cons_succ, List.map_cons, List.sum_cons, sum_map_set F l t a b h]
    ring

/-! ## `CleanSTemp` -/

theorem ColTreeMaker.CleanSTemp.inner_get :
    ∀ (q : List Int) (row row1 : List ThreadEntry),
      ColTreeMaker.CleanSTemp.inner row q = some row1 →
      row1.length = row.length ∧
      ∀ n : Nat, row1[n]? = if (n : Int) ∈ q then (row[n]?).map ThreadEntry.zeroSums else row[n]?
  | [], row, row1, h => by
    simp only [ColTreeMaker.CleanSTemp.inner, Option.some.injEq] at h
    subst h
    simp
  | a :: qs, row, row1, h => by
    simp only [ColTreeMaker.CleanSTemp.inner, Option.bind_eq_some] at h
    obtain ⟨row2, h1, h2⟩ := h
    obtain ⟨m, x, rfl, hx, rfl⟩ := modifyAtIdx_eq_some h1
    obtain ⟨hlen, hget⟩ := ColTreeMaker.CleanSTemp.inner_get qs _ _ h2
    refine ⟨by simpa using hlen, fun n => ?_⟩
    rw [hget n]
    have hm : m < row.length := by
      rcases List.getElem?_eq_some.mp hx with ⟨hm, -⟩
      exact hm
    by_cases hnm : n = m
    · subst hnm
      have hset : (row.set n x.zeroSums)[n]? = some x.zeroSums := by
        simp [List.getElem?_set_self, hm]
      simp only [hset, hx, List.mem_cons, true_or, if_true, Option.map_some']
      split <;> rfl
    · have hne : (n : Int) ≠ (m : Int) := by exact_mod_cast hnm
      have hset : (row.set m x.zeroSums)[n]? = row[n]? := by
        rw [List.getElem?_set_ne (Ne.symm hnm)]
      simp only [hset, List.mem_cons, hne, false_or]

theorem ColTreeMaker.CleanSTemp.inner_succeeds :
    ∀ (q : List Int) (row : List ThreadEntry),
      (∀ a ∈ q, 0 ≤ a ∧ a.toNat < row.length) →
      ∃ row1, ColTreeMaker.CleanSTemp.inner row q = some row1
  | [], row, _ => ⟨row, rfl⟩
  | a :: qs, row, h => by
    obtain ⟨h0, hlt⟩ := h a (List.mem_cons_self _ _)
    simp only [ColTreeMaker.CleanSTemp.inner, modifyAtIdx_of_lt row a _ h0 hlt, Option.some_bind]
    apply ColTreeMaker.CleanSTemp.inner_succeeds qs
    intro c hc
    simpa using h c (List.mem_cons_of_mem _ hc)

theorem ColTreeMaker.CleanSTemp.outer_mem (q : List Int) :
    ∀ (st c : List (List ThreadEntry)), ColTreeMaker.CleanSTemp.outer q st = some c →
      c.map List.length = st.map List.length ∧
      ∀ row1 ∈ c, ∃ row ∈ st, ColTreeMaker.CleanSTemp.inner row q = some row1
  | [], c, h => by
    simp only [ColTreeMaker.CleanSTemp.outer, Option.some.injEq] at h
    subst h
    simp
  | row :: rest, c, h => by
    simp only [ColTreeMaker.CleanSTemp.outer, Option.bind_eq_some, Option.map_eq_some'] at h
    obtain ⟨row1, h1, rest1, h2, rfl⟩ := h
    obtain ⟨hshape, hmem⟩ := ColTreeMaker.CleanSTemp.outer_mem q rest rest1 h2
    refine ⟨by simp [hshape, (ColTreeMaker.CleanSTemp.inner_get q row row1 h1).1], ?_⟩
    intro r hr
    rcases List.mem_cons.mp hr with rfl | hr
    · exact ⟨row, List.mem_cons_self _ _, h1⟩
    · obtain ⟨r0, hr0, hr1⟩ := hmem r hr
      exact ⟨r0, List.mem_cons_of_mem _ hr0, hr1⟩

theorem ColTreeMaker.CleanSTemp.outer_succeeds (q : List Int) :
    ∀ (st : List (List ThreadEntry)),
      (∀ row ∈ st, ∀ a ∈ q, 0 ≤ a ∧ a.toNat < row.length) →
      ∃ c, ColTreeMaker.CleanSTemp.outer q st = some c
  | [], _ => ⟨[], rfl⟩
  | row :: rest, h => by
    obtain ⟨row1, h1⟩ := ColTreeMaker.CleanSTemp.inner_succeeds q row
      (h row (List.mem_cons_self _ _))
    obtain ⟨rest1, h2⟩ := ColTreeMaker.CleanSTemp.outer_succeeds q rest
      (fun r hr => h r (List.mem_cons_of_mem _ hr))
    exact ⟨row1 :: rest1, by simp [ColTreeMaker.CleanSTemp.outer, h1, h2]⟩

theorem ColTreeMaker.CleanSTemp.outer_colSum (q : List Int) (st c : List (List ThreadEntry))
    (h : ColTreeMaker.CleanSTemp.outer q st = some c) (f : ThreadEntry → ℚ)
    (hf : ∀ e : ThreadEntry, f e.zeroSums = 0) (j : Nat) (hj : (j : Int) ∈ q) :
    colSum f c j = 0 := by
  unfold colSum
  apply List.sum_eq_zero
  intro x hx
  obtain ⟨row1, hrow1, rfl⟩ := List.mem_map.mp hx
  obtain ⟨row, -, hrow⟩ := (ColTreeMaker.CleanSTemp.outer_mem q st c h).2 row1 hrow1
  rw [(ColTreeMaker.CleanSTemp.inner_get q row row1 hrow).2 j, if_pos hj]
  cases row[j]? with
  | none => rfl
  | some e => simp [hf]

/-! ## The accumulation loop of `UpdateSNode` -/

theorem nodeSum_nil_left (vals : List ℚ) (n : Int) : nodeSum [] vals n = 0 := by
  simp [nodeSum]

theorem nodeSum_nil_right (ps : List Int) (n : Int) : nodeSum ps [] n = 0 := by
  simp [nodeSum]

theorem nodeSum_cons (p : Int) (ps : List Int) (v : ℚ) (vals : List ℚ) (n : Int) :
    nodeSum (p :: ps) (v :: vals) n = (if p = n then v else 0) + nodeSum ps vals n := by
  unfold nodeSum
  by_cases hp : p = n <;> simp [List.filter_cons, hp]

theorem nodeSum_cons_drop (p : Int) (ps : List Int) (vals : List ℚ) (i : Nat) (n : Int) :
    nodeSum (p :: ps) (vals.drop i) n =
      (if p = n then (vals[i]?).getD 0 else 0) + nodeSum ps (vals.drop (i + 1)) n := by
  by_cases hi : i < vals.length
  · rw [List.drop_eq_getElem_cons hi, nodeSum_cons, List.getElem?_eq_getElem hi]
    rfl
  · have h1 : vals.drop i = [] := List.drop_eq_nil_of_le (by omega)
    have h2 : vals.drop (i + 1) = [] := List.drop_eq_nil_of_le (by omega)
    have h3 : vals[i]? = none := List.getElem?_eq_none (by omega)
    rw [h1, h2, h3, nodeSum_nil_right, nodeSum_nil_right]
    simp

theorem ColTreeMaker.UpdateSNode.add_eq_some {st st1 : List (List ThreadEntry)} {t : Nat}
    {p : Int} {g h : ℚ} (hadd : ColTreeMaker.UpdateSNode.add st t p g h = some st1) :
    ∃ (row : List ThreadEntry) (m : Nat) (x : ThreadEntry),
      st[t]? = some row ∧ p = (m : Int) ∧ row[m]? = some x ∧
      st1 = st.set t (row.set m (x.addStat g h)) := by
  unfold ColTreeMaker.UpdateSNode.add at hadd
  cases hrow : st[t]? with
  | none => simp [hrow] at hadd
  | some row =>
    simp only [hrow, Option.map_eq_some'] at hadd
    obtain ⟨row1, h1, rfl⟩ := hadd
    obtain ⟨m, x, rfl, hx, rfl⟩ := modifyAtIdx_eq_some h1
    exact ⟨row, m, x, rfl, rfl, hx, rfl⟩

theorem ColTreeMaker.UpdateSNode.add_shape {st st1 : List (List ThreadEntry)} {t : Nat}
    {p : Int} {g h : ℚ} (hadd : ColTreeMaker.UpdateSNode.add st t p g h = some st1) :
    st1.map List.length = st.map List.length := by
  obtain ⟨row, m, x, hrow, -, hx, rfl⟩ := ColTreeMaker.UpdateSNode.add_eq_some hadd
  have ht : t < st.length := (List.getElem?_eq_some.mp hrow).1
  apply List.ext_getElem?
  intro n
  simp only [List.getElem?_map]
  by_cases hn : t = n
  · subst hn
    rw [List.getElem?_set_self ht, hrow]
    simp
  · rw [List.getElem?_set_ne hn]

theorem ColTreeMaker.UpdateSNode.add_colSum {st st1 : List (List ThreadEntry)} {t : Nat}
    {p : Int} {g h : ℚ} (hadd : ColTreeMaker.UpdateSNode.add st t p g h = some st1)
    (f : ThreadEntry → ℚ) (d : ℚ) (hf : ∀ e : ThreadEntry, f (e.addStat g h) = f e + d)
    (j : Nat) :
    colSum f st1 j = colSum f st j + (if p = (j : Int) then d else 0) := by
  obtain ⟨row, m, x, hrow, rfl, hx, rfl⟩ := ColTreeMaker.UpdateSNode.add_eq_some hadd
  have hm : m < row.length := (List.getElem?_eq_some.mp hx).1
  unfold colSum
  rw [sum_map_set _ st t row _ hrow]
  congr 1
  by_cases hmj : m = j
  · subst hmj
    simp [hx, hf, List.getElem?_set_self hm]
  · have hne : ¬ ((m : Int) = (j : Int)) := by exact_mod_cast hmj
    simp [List.getElem?_set_ne hmj, hne]

theorem ColTreeMaker.UpdateSNode.add_succeeds (st : List (List ThreadEntry)) (t : Nat)
    (p : Int) (g h : ℚ) (h0 : 0 ≤ p) (hlt : p.toNat < rowLen st t) :
    ∃ st1, ColTreeMaker.UpdateSNode.add st t p g h = some st1 := by
  unfold rowLen at hlt
  rw [List.getElem?_map] at hlt
  unfold ColTreeMaker.UpdateSNode.add
  cases hrow : st[t]? with
  | none => simp [hrow] at hlt
  | some row =>
    simp only [hrow, Option.map_some', Option.getD_some] at hlt
    simp only [modifyAtIdx_of_lt row p _ h0 hlt, Option.map_some']
    exact ⟨_, rfl⟩

theorem rowLen_congr {st st1 : List (List ThreadEntry)}
    (h : st1.map List.length = st.map List.length) (t : Nat) : rowLen st1 t = rowLen st t := by
  unfold rowLen
  rw [h]

theorem ColTreeMaker.UpdateSNode.step1_colSum (tid : Nat → Nat) (grad hess : List ℚ) (j : Nat) :
    ∀ (ps : List Int) (i : Nat) (st st1 : List (List ThreadEntry)),
      ColTreeMaker.UpdateSNode.step1 tid grad hess i ps st = some st1 →
      st1.map List.length = st.map List.length ∧
      colSum ThreadEntry.sum_grad st1 j =
        colSum ThreadEntry.sum_grad st j + nodeSum ps (grad.drop i) j ∧
      colSum ThreadEntry.sum_hess st1 j =
        colSum ThreadEntry.sum_hess st j + nodeSum ps (hess.drop i) j
  | [], i, st, st1, h => by
    simp only [ColTreeMaker.UpdateSNode.step1, Option.some.injEq] at h
    subst h
    simp [nodeSum_nil_left]
  | p :: ps, i, st, st1, h => by
    rw [nodeSum_cons_drop, nodeSum_cons_drop]
    unfold ColTreeMaker.UpdateSNode.step1 at h
    by_cases hp : p < 0
    · rw [if_pos hp] at h
      obtain ⟨hs, hg, hh⟩ := ColTreeMaker.UpdateSNode.step1_colSum tid grad hess j ps (i + 1) st st1 h
      have hne : ¬ (p = (j : Int)) := by omega
      refine ⟨hs, ?_, ?_⟩
      · rw [hg, if_neg hne, zero_add]
      · rw [hh, if_neg hne, zero_add]
    · rw [if_neg hp] at h
      cases hg : grad[i]? with
      | none => simp [hg] at h
      | some g =>
        cases hh : hess[i]? with
        | none => simp [hg, hh] at h
        | some hv =>
          simp only [hg, hh, Option.bind_eq_some] at h
          obtain ⟨st2, hadd, hrest⟩ := h
          obtain ⟨hs, hg2, hh2⟩ :=
            ColTreeMaker.UpdateSNode.step1_colSum tid grad hess j ps (i + 1) st2 st1 hrest
          have hag := ColTreeMaker.UpdateSNode.add_colSum hadd ThreadEntry.sum_grad g
            (fun e => rfl) j
          have hah := ColTreeMaker.UpdateSNode.add_colSum hadd ThreadEntry.sum_hess hv
            (fun e => rfl) j
          refine ⟨by rw [hs, ColTreeMaker.UpdateSNode.add_shape hadd], ?_, ?_⟩
          · rw [hg2, hag, Option.getD_some]
            ring
          · rw [hh2, hah, Option.getD_some]
            ring

theorem ColTreeMaker.UpdateSNode.step1_succeeds (tid : Nat → Nat) (grad hess : List ℚ) :
    ∀ (ps : List Int) (i : Nat) (st : List (List ThreadEntry)),
      (∀ k, ∀ hk : k < ps.length, 0 ≤ ps[k] →
        i + k < grad.length ∧ i + k < hess.length ∧ (ps[k]).toNat < rowLen st (tid (i + k))) →
      ∃ st1, ColTreeMaker.UpdateSNode.step1 tid grad hess i ps st = some st1
  | [], i, st, _ => ⟨st, rfl⟩
  | p :: ps, i, st, h => by
    unfold ColTreeMaker.UpdateSNode.step1
    have hshift : ∀ st2 : List (List ThreadEntry), st2.map List.length = st.map List.length →
        ∀ k, ∀ hk : k < ps.length, 0 ≤ ps[k] →
          i + 1 + k < grad.length ∧ i + 1 + k < hess.length ∧
          (ps[k]).toNat < rowLen st2 (tid (i + 1 + k)) := by
      intro st2 hst2 k hk hpos
      have hk1 : k + 1 < (p :: ps).length := by simpa using hk
      have := h (k + 1) hk1 (by simpa using hpos)
      have e : i + (k + 1) = i + 1 + k := by omega
      rw [e] at this
      simpa [rowLen_congr hst2] using this
    by_cases hp : p < 0
    · rw [if_pos hp]
      exact ColTreeMaker.UpdateSNode.step1_succeeds tid grad hess ps (i + 1) st (hshift st rfl)
    · rw [if_neg hp]
      have h0 := h 0 (by simp) (by simpa using not_lt.mp hp)
      simp only [Nat.add_zero, List.getElem_cons_zero] at h0
      obtain ⟨hgl, hhl, hrow⟩ := h0
      rw [List.getElem?_eq_getElem hgl, List.getElem?_eq_getElem hhl]
      obtain ⟨st2, hadd⟩ := ColTreeMaker.UpdateSNode.add_succeeds st (tid i) p grad[i] hess[i]
        (not_lt.mp hp) hrow
      simp only [hadd, Option.some_bind]
      exact ColTreeMaker.UpdateSNode.step1_succeeds tid grad hess ps (i + 1) st2
        (hshift st2 (ColTreeMaker.UpdateSNode.add_shape hadd))

/-! ## The reduction loop of `UpdateSNode` -/

theorem ColTreeMaker.UpdateSNode.total_eq (j : Nat) :
    ∀ (st : List (List ThreadEntry)) (acc r : ℚ × ℚ),
      ColTreeMaker.UpdateSNode.total j st acc = some r →
      r = (acc.1 + colSum ThreadEntry.sum_grad st j, acc.2 + colSum ThreadEntry.sum_hess st j)
  | [], acc, r, h => by
    simp only [ColTreeMaker.UpdateSNode.total, Option.some.injEq] at h
    subst h
    simp [colSum]
  | row :: rest, acc, r, h => by
    unfold ColTreeMaker.UpdateSNode.total at h
    cases he : row[j]? with
    | none => simp [he] at h
    | some e =>
      simp only [he] at h
      rw [ColTreeMaker.UpdateSNode.total_eq j rest _ r h]
      simp only [colSum, List.map_cons, List.sum_cons, he, Option.map_some', Option.getD_some]
      ext <;> simp only [] <;> ring

theorem ColTreeMaker.UpdateSNode.total_succeeds (j : Nat) :
    ∀ (st : List (List ThreadEntry)) (acc : ℚ × ℚ), (∀ row ∈ st, j < row.length) →
      ∃ r, ColTreeMaker.UpdateSNode.total j st acc = some r
  | [], acc, _ => ⟨acc, rfl⟩
  | row :: rest, acc, h => by
    unfold ColTreeMaker.UpdateSNode.total
    rw [List.getElem?_eq_getElem (h row (List.mem_cons_self _ _))]
    exact ColTreeMaker.UpdateSNode.total_succeeds j rest _
      (fun r hr => h r (List.mem_cons_of_mem _ hr))

theorem ColTreeMaker.UpdateSNode.node_eq_some {param : TreeParamTrain} {tree : RegTree}
    {st : List (List ThreadEntry)} {j : Nat} {sn sn1 : List SplitEntry}
    (h : ColTreeMaker.UpdateSNode.node param tree st j sn = some sn1) :
    ∃ (tot : ℚ × ℚ) (nd : TreeNode) (e e1 : SplitEntry),
      ColTreeMaker.UpdateSNode.total j st (0, 0) = some tot ∧ tree.nodes[j]? = some nd ∧
      sn[j]? = some e ∧ sn1 = sn.set j e1 ∧
      (nd.is_root = true → e1 = { e with weight := param.CalcWeight tot.1 tot.2 0,
                                         loss_gain := param.CalcGain tot.1 tot.2 0 }) ∧
      (nd.is_root = false → ∃ pe, sn[nd.parent]? = some pe ∧
        e1 = { e with weight := param.CalcWeight tot.1 tot.2 pe.weight }) := by
  unfold ColTreeMaker.UpdateSNode.node at h
  cases htot : ColTreeMaker.UpdateSNode.total j st (0, 0) with
  | none =>
    rw [htot] at h
    simp at h
  | some tot =>
    obtain ⟨sg, sh⟩ := tot
    simp only [htot] at h
    cases hnd : tree.nodes[j]? with
    | none => simp [hnd] at h
    | some nd =>
      simp only [hnd] at h
      cases hroot : nd.is_root with
      | false =>
        simp only [hroot, Bool.not_false, if_true] at h
        cases hpe : sn[nd.parent]? with
        | none => simp [hpe] at h
        | some pe =>
          simp only [hpe] at h
          cases he : sn[j]? with
          | none => simp [he] at h
          | some e =>
            simp only [he, Option.some.injEq] at h
            exact ⟨(sg, sh), nd, e, _, rfl, rfl, rfl, h.symm, by simp [hroot],
              fun _ => ⟨pe, hpe, rfl⟩⟩
      | true =>
        simp only [hroot, Bool.not_true, Bool.false_eq_true, if_false] at h
        cases he : sn[j]? with
        | none => simp [he] at h
        | some e =>
          simp only [he, Option.some.injEq] at h
          exact ⟨(sg, sh), nd, e, _, rfl, rfl, rfl, h.symm, fun _ => rfl, by simp [hroot]⟩

theorem ColTreeMaker.UpdateSNode.node_succeeds (param : TreeParamTrain) (tree : RegTree)
    (st : List (List ThreadEntry)) (j : Nat) (sn : List SplitEntry)
    (hst : ∀ row ∈ st, j < row.length) (hj : j < tree.nodes.length) (hsn : j < sn.length)
    (hpar : (tree.nodes[j]).is_root = false → (tree.nodes[j]).parent < sn.length) :
    ∃ sn1, ColTreeMaker.UpdateSNode.node param tree st j sn = some sn1 := by
  obtain ⟨tot, htot⟩ := ColTreeMaker.UpdateSNode.total_succeeds j st (0, 0) hst
  unfold ColTreeMaker.UpdateSNode.node
  simp only [htot, List.getElem?_eq_getElem hj, List.getElem?_eq_getElem hsn]
  cases hroot : (tree.nodes[j]).is_root with
  | false =>
    simp only [Bool.not_false, if_true, List.getElem?_eq_getElem (hpar hroot)]
    exact ⟨_, rfl⟩
  | true =>
    simp only [Bool.not_true, Bool.false_eq_true, if_false]
    exact ⟨_, rfl⟩

theorem ColTreeMaker.UpdateSNode.step2_get (param : TreeParamTrain) (tree : RegTree)
    (st : List (List ThreadEntry)) :
    ∀ (n j : Nat) (sn sn1 : List SplitEntry),
      ColTreeMaker.UpdateSNode.step2 param tree st n j sn = some sn1 →
      sn1.length = sn.length ∧
      (∀ m, (m < j ∨ j + n ≤ m) → sn1[m]? = sn[m]?) ∧
      (∀ m, j ≤ m → m < j + n →
        ∃ (tot : ℚ × ℚ) (nd : TreeNode) (e e1 : SplitEntry),
          ColTreeMaker.UpdateSNode.total m st (0, 0) = some tot ∧ tree.nodes[m]? = some nd ∧
          sn[m]? = some e ∧ sn1[m]? = some e1 ∧
          (nd.is_root = true → e1 = { e with weight := param.CalcWeight tot.1 tot.2 0,
                                             loss_gain := param.CalcGain tot.1 tot.2 0 }) ∧
          (nd.is_root = false → ∃ pe,
            (if j ≤ nd.parent ∧ nd.parent < m then sn1[nd.parent]? else sn[nd.parent]?) =
              some pe ∧
            e1 = { e with weight := param.CalcWeight tot.1 tot.2 pe.weight }))
  | 0, j, sn, sn1, h => by
    simp only [ColTreeMaker.UpdateSNode.step2, Option.some.injEq] at h
    subst h
    exact ⟨rfl, fun _ _ => rfl, fun m h1 h2 => absurd h2 (by omega)⟩
  | n + 1, j, sn, sn1, h => by
    simp only [ColTreeMaker.UpdateSNode.step2, Option.bind_eq_some] at h
    obtain ⟨sn2, hnode, hrest⟩ := h
    obtain ⟨hlen, hframe, hidx⟩ :=
      ColTreeMaker.UpdateSNode.step2_get param tree st n (j + 1) sn2 sn1 hrest
    obtain ⟨tot, nd, e, e1, htot, hnd, he, rfl, hroot, hnon⟩ :=
      ColTreeMaker.UpdateSNode.node_eq_some hnode
    have hj : j < sn.length := (List.getElem?_eq_some.mp he).1
    refine ⟨by simpa using hlen, ?_, ?_⟩
    · intro m hm
      rw [hframe m (by omega), List.getElem?_set_ne (by omega)]
    · intro m h1 h2
      by_cases hmj : m = j
      · subst hmj
        refine ⟨tot, nd, e, e1, htot, hnd, he, ?_, hroot, ?_⟩
        · rw [hframe m (by omega), List.getElem?_set_self hj]
        · intro hr
          obtain ⟨pe, hpe1, hpe⟩ := hnon hr
          refine ⟨pe, ?_, hpe⟩
          rw [if_neg (by omega)]
          exact hpe1
      · obtain ⟨tot2, nd2, e2, e3, htot2, hnd2, he2, he3, hroot2, hnon2⟩ :=
          hidx m (by omega) (by omega)
        rw [List.getElem?_set_ne (Ne.symm hmj)] at he2
        refine ⟨tot2, nd2, e2, e3, htot2, hnd2, he2, he3, hroot2, ?_⟩
        intro hr
        obtain ⟨pe, hpe1, hpe⟩ := hnon2 hr
        refine ⟨pe, ?_, hpe⟩
        by_cases hc1 : j + 1 ≤ nd2.parent ∧ nd2.parent < m
        · rw [if_pos hc1] at hpe1
          rw [if_pos ⟨by omega, hc1.2⟩]
          exact hpe1
        · rw [if_neg hc1] at hpe1
          by_cases hpj : nd2.parent = j
          · rw [if_pos ⟨by omega, by omega⟩, hframe nd2.parent (by omega)]
            exact hpe1
          · rw [if_neg (by omega), ← List.getElem?_set_ne (Ne.symm hpj)]
            exact hpe1

theorem ColTreeMaker.UpdateSNode.step2_succeeds (param : TreeParamTrain) (tree : RegTree)
    (st : List (List ThreadEntry)) :
    ∀ (n j : Nat) (sn : List SplitEntry),
      (∀ m, j ≤ m → m < j + n → (∀ row ∈ st, m < row.length) ∧ m < sn.length ∧
        ∃ hm : m < tree.nodes.length,
          ((tree.nodes[m]).is_root = false → (tree.nodes[m]).parent < sn.length)) →
      ∃ sn1, ColTreeMaker.UpdateSNode.step2 param tree st n j sn = some sn1
  | 0, j, sn, _ => ⟨sn, rfl⟩
  | n + 1, j, sn, h => by
    obtain ⟨hst, hsn, hj, hpar⟩ := h j (le_refl j) (by omega)
    obtain ⟨sn2, hnode⟩ := ColTreeMaker.UpdateSNode.node_succeeds param tree st j sn hst hj hsn hpar
    obtain ⟨-, -, -, e1, -, -, -, rfl, -, -⟩ := ColTreeMaker.UpdateSNode.node_eq_some hnode
    simp only [ColTreeMaker.UpdateSNode.step2, hnode, Option.some_bind]
    apply ColTreeMaker.UpdateSNode.step2_succeeds param tree st n (j + 1)
    intro m h1 h2
    simpa using h m (by omega) (by omega)

/-! ## `UpdateSNode` as a whole -/

theorem ColTreeMaker.UpdateSNode_eq_some {b b1 : ColTreeMaker} {tid : Nat → Nat}
    {tree : RegTree} {q : List Int} (h : b.UpdateSNode tid tree q = some b1) :
    ∃ (c st : List (List ThreadEntry)) (sn : List SplitEntry),
      ColTreeMaker.CleanSTemp.outer q b.stemp = some c ∧
      ColTreeMaker.UpdateSNode.step1 tid b.grad b.hess 0
        (b.position.take (ColTreeMaker.UpdateSNode.ndata b)) c = some st ∧
      ColTreeMaker.UpdateSNode.step2 b.param tree st q.length 0 b.snode = some sn ∧
      b1 = { b with stemp := st, snode := sn } := by
  simp only [ColTreeMaker.UpdateSNode, ColTreeMaker.CleanSTemp, Option.bind_eq_some,
    Option.map_eq_some'] at h
  obtain ⟨b2, ⟨c, hc, rfl⟩, st, hst, sn, hsn, rfl⟩ := h
  exact ⟨c, st, sn, hc, hst, hsn, rfl⟩

theorem ColTreeMaker.UpdateSNode_succeeds (b : ColTreeMaker) (tid : Nat → Nat)
    (tree : RegTree) (q : List Int) (hr : ColTreeMaker.UpdateSNode.InRange b tid tree q) :
    ∃ b1, b.UpdateSNode tid tree q = some b1 := by
  obtain ⟨hrows, hpos, htree, hsn, hpar⟩ := hr
  obtain ⟨c, hc⟩ := ColTreeMaker.CleanSTemp.outer_succeeds q b.stemp
    (fun row hrow => (hrows row hrow).1)
  have hcs := (ColTreeMaker.CleanSTemp.outer_mem q b.stemp c hc).1
  obtain ⟨st, hst⟩ := ColTreeMaker.UpdateSNode.step1_succeeds tid b.grad b.hess
    (b.position.take (ColTreeMaker.UpdateSNode.ndata b)) 0 c
    (by
      intro k hk h0
      have hk2 : k < b.position.length := by
        rw [List.length_take] at hk
        omega
      rw [List.getElem_take] at h0 ⊢
      have := hpos k hk2 h0
      simpa [rowLen_congr hcs] using this)
  have hss := (ColTreeMaker.UpdateSNode.step1_colSum tid b.grad b.hess 0
    (b.position.take (ColTreeMaker.UpdateSNode.ndata b)) 0 c st hst).1
  have hlen : ∀ row ∈ st, q.length ≤ row.length := by
    intro row hrow
    have hm : row.length ∈ st.map List.length := List.mem_map_of_mem _ hrow
    rw [hss, hcs] at hm
    obtain ⟨row0, hrow0, hl⟩ := List.mem_map.mp hm
    rw [← hl]
    exact (hrows row0 hrow0).2
  obtain ⟨sn, hsn2⟩ := ColTreeMaker.UpdateSNode.step2_succeeds b.param tree st q.length 0 b.snode
    (by
      intro m _ hm
      have hmq : m < q.length := by omega
      exact ⟨fun row hrow => lt_of_lt_of_le hmq (hlen row hrow), by omega,
        by omega, fun hroot => hpar m (by omega) hmq hroot⟩)
  have hst2 : ColTreeMaker.UpdateSNode.step1 tid b.grad b.hess 0
      (List.take (ColTreeMaker.UpdateSNode.ndata { b with stemp := c }) b.position) c =
      some st := hst
  exact ⟨{ b with stemp := st, snode := sn }, by
    simp [ColTreeMaker.UpdateSNode, ColTreeMaker.CleanSTemp, hc, hst2, hsn2]⟩

theorem ColTreeMaker.UpdateSNode.take_ndata (b : ColTreeMaker)
    (h : b.position.length < 2 ^ 32) :
    b.position.take (ColTreeMaker.UpdateSNode.ndata b) = b.position := by
  unfold ColTreeMaker.UpdateSNode.ndata
  rw [Nat.mod_eq_of_lt h, List.take_length]

theorem ColTreeMaker.UpdateSNode_total {b b1 : ColTreeMaker} {tid : Nat → Nat}
    {tree : RegTree} {q : List Int} (h : b.UpdateSNode tid tree q = some b1)
    (j : Nat) (hj : (j : Int) ∈ q) (tot : ℚ × ℚ)
    (htot : ColTreeMaker.UpdateSNode.total j b1.stemp (0, 0) = some tot) :
    tot = (nodeSum (b.position.take (ColTreeMaker.UpdateSNode.ndata b)) b.grad j,
           nodeSum (b.position.take (ColTreeMaker.UpdateSNode.ndata b)) b.hess j) := by
  obtain ⟨c, st, sn, hc, hst, -, rfl⟩ := ColTreeMaker.UpdateSNode_eq_some h
  obtain ⟨-, hg, hh⟩ := ColTreeMaker.UpdateSNode.step1_colSum tid b.grad b.hess j
    (b.position.take (ColTreeMaker.UpdateSNode.ndata b)) 0 c st hst
  rw [ColTreeMaker.UpdateSNode.total_eq j st (0, 0) tot htot, hg, hh,
    ColTreeMaker.CleanSTemp.outer_colSum q b.stemp c hc ThreadEntry.sum_grad (fun _ => rfl) j hj,
    ColTreeMaker.CleanSTemp.outer_colSum q b.stemp c hc ThreadEntry.sum_hess (fun _ => rfl) j hj]
  simp

theorem ColTreeMaker.UpdateSNode_range_get {b b1 : ColTreeMaker} {tid : Nat → Nat}
    {tree : RegTree} {k : Nat}
    (h : b.UpdateSNode tid tree ((List.range k).map Int.ofNat) = some b1) :
    ∀ n : Nat, n < k → ∃ (nd : TreeNode) (e e1 : SplitEntry),
      tree.nodes[n]? = some nd ∧ b.snode[n]? = some e ∧ b1.snode[n]? = some e1 ∧
      (nd.is_root = true →
        e1 = { e with
          weight := b.param.CalcWeight
            (nodeSum (b.position.take (ColTreeMaker.UpdateSNode.ndata b)) b.grad n)
            (nodeSum (b.position.take (ColTreeMaker.UpdateSNode.ndata b)) b.hess n) 0,
          loss_gain := b.param.CalcGain
            (nodeSum (b.position.take (ColTreeMaker.UpdateSNode.ndata b)) b.grad n)
            (nodeSum (b.position.take (ColTreeMaker.UpdateSNode.ndata b)) b.hess n) 0 }) ∧
      (nd.is_root = false → ∃ pe,
        (if nd.parent < n then b1.snode[nd.parent]? else b.snode[nd.parent]?) = some pe ∧
        e1 = { e with
          weight := b.param.CalcWeight
            (nodeSum (b.position.take (ColTreeMaker.UpdateSNode.ndata b)) b.grad n)
            (nodeSum (b.position.take (ColTreeMaker.UpdateSNode.ndata b)) b.hess n)
            pe.weight }) := by
  intro n hn
  obtain ⟨cs, st, sn, hc, hst, hsn, hb⟩ := ColTreeMaker.UpdateSNode_eq_some h
  have hlen : ((List.range k).map Int.ofNat).length = k := by simp
  rw [hlen] at hsn
  obtain ⟨-, -, hidx⟩ := ColTreeMaker.UpdateSNode.step2_get b.param tree st k 0 b.snode sn hsn
  obtain ⟨tot, nd, e, e1, htot, hnd, he, he1, hroot, hnon⟩ := hidx n (Nat.zero_le n) (by omega)
  have hmem : (n : Int) ∈ (List.range k).map Int.ofNat :=
    List.mem_map.mpr ⟨n, List.mem_range.mpr hn, rfl⟩
  have hst1 : b1.stemp = st := by rw [hb]
  have hsn1 : b1.snode = sn := by rw [hb]
  have htot2 := ColTreeMaker.UpdateSNode_total h n hmem tot (by rw [hst1]; exact htot)
  refine ⟨nd, e, e1, hnd, he, by rw [hsn1]; exact he1, ?_, ?_⟩
  · intro hr
    rw [hroot hr, htot2]
  · intro hr
    obtain ⟨pe, hpe1, hpe⟩ := hnon hr
    refine ⟨pe, ?_, by rw [hpe, htot2]⟩
    rw [hsn1]
    by_cases hp : nd.parent < n
    · rw [if_pos hp]
      rw [if_pos ⟨Nat.zero_le _, hp⟩] at hpe1
      exact hpe1
    · rw [if_neg hp]
      rw [if_neg (fun hc2 => hp hc2.2)] at hpe1
      exact hpe1

/-! ## Claims about `UpdateSNode` -/

/-- C5: at depth 1 (root 0 split into 1 and 2, queue `[1, 2]`, instances at 1, 2, 2 with
gradients 1, 2, 4 and unit hessians, L2 strength 1) `UpdateSNode` returns with weights
`[-7/4, -1/2, 0]`: the second loop visits the indices 0 and 1, so the queued node 2
keeps its old weight 0 instead of `CalcWeight(6, 2, -7/4) = -2`. -/
theorem ColTreeMaker.UpdateSNode_misses_queued_node :
    ((depth1Builder (l2Param 2 1) [1, 2, 2]).UpdateSNode (fun _ => 0) depth1Tree [1, 2]).map
        (fun b => b.snode.map (fun e => e.weight)) = some [-7/4, -1/2, 0] ∧
    (l2Param 2 1).CalcWeight (nodeSum [1, 2, 2] [1, 2, 4] 2) (nodeSum [1, 2, 2] [1, 1, 1] 2)
        (-7/4) = -2 := by
  constructor <;> with_unfolding_all decide

/-- C6 (as stated, refuted): in the same depth-1 state the queued node 1 is not a root,
and after `UpdateSNode` its `loss_gain` is still 0, not
`CalcGain(1, 1, -7/4) = 1/2`. -/
theorem ColTreeMaker.UpdateSNode_keeps_loss_of_non_root :
    ((depth1Builder (l2Param 2 1) [1, 2, 2]).UpdateSNode (fun _ => 0) depth1Tree [1, 2]).map
        (fun b => b.snode.map (fun e => e.loss_gain)) = some [49/4, 0, 0] ∧
    (depth1Tree.nodes[1]?).map TreeNode.is_root = some false ∧
    (l2Param 2 1).CalcGain (nodeSum [1, 2, 2] [1, 2, 4] 1) (nodeSum [1, 2, 2] [1, 1, 1] 1)
        (-7/4) = 1/2 := by
  refine ⟨?_, ?_, ?_⟩ <;> with_unfolding_all decide

/-- C6 (amended): with fewer than 2^32 instances and in exact arithmetic (no
floating-point operation of the call rounds), when the
queue lists the node ids `0 .. k-1` in order and every index is in range,
`UpdateSNode` returns, and for each queued node `n`, with `G_n`, `H_n` the sums of
`grad[i]`, `hess[i]` over the instances with `position[i] == n`: if `tree[n]` is a
root, `snode[n].weight` becomes `CalcWeight(G_n, H_n, 0)` and `snode[n].loss_gain`
becomes `CalcGain(G_n, H_n, 0)`; if it is not a root, only its weight is rewritten, to
`CalcWeight(G_n, H_n, p)` with `p` the weight stored for its parent at that moment
(the one this call has just written when the parent's id is below `n`, the old one
otherwise), and its `loss_gain`, `sindex` and `split_value` are left as they were. -/
theorem ColTreeMaker.UpdateSNode_loss_gain (b : ColTreeMaker) (tid : Nat → Nat)
    (tree : RegTree) (k : Nat)
    (hr : ColTreeMaker.UpdateSNode.InRange b tid tree ((List.range k).map Int.ofNat))
    (hN : b.position.length < 2 ^ 32) :
    ∃ b1, b.UpdateSNode tid tree ((List.range k).map Int.ofNat) = some b1 ∧
      ∀ n : Nat, n < k → ∃ (nd : TreeNode) (e e1 : SplitEntry),
        tree.nodes[n]? = some nd ∧ b.snode[n]? = some e ∧ b1.snode[n]? = some e1 ∧
        (nd.is_root = true →
          e1 = { e with
            weight := b.param.CalcWeight (nodeSum b.position b.grad n)
              (nodeSum b.position b.hess n) 0,
            loss_gain := b.param.CalcGain (nodeSum b.position b.grad n)
              (nodeSum b.position b.hess n) 0 }) ∧
        (nd.is_root = false → ∃ pe,
          (if nd.parent < n then b1.snode[nd.parent]? else b.snode[nd.parent]?) = some pe ∧
          e1 = { e with
            weight := b.param.CalcWeight (nodeSum b.position b.grad n)
              (nodeSum b.position b.hess n) pe.weight }) := by
  obtain ⟨b1, hb1⟩ := ColTreeMaker.UpdateSNode_succeeds b tid tree _ hr
  refine ⟨b1, hb1, ?_⟩
  intro n hn
  have hget := ColTreeMaker.UpdateSNode_range_get hb1 n hn
  rw [ColTreeMaker.UpdateSNode.take_ndata b hN] at hget
  exact hget

/-- Witness of C6 (amended): the tree of depth 1 with the queue `[0, 1, 2]` and one
instance at each node, so that the root gets `G = 1`, `H = 1` and the two children,
which are not roots, get `G = 2` and `G = 4`. -/
theorem ColTreeMaker.UpdateSNode_loss_gain_witness :
    ColTreeMaker.UpdateSNode.InRange depth1Spread (fun _ => 0) depth1Tree
        ((List.range 3).map Int.ofNat) ∧
    depth1Spread.position.length < 2 ^ 32 ∧
    ∃ b1, depth1Spread.UpdateSNode (fun _ => 0) depth1Tree
        ((List.range 3).map Int.ofNat) = some b1 ∧
      ∀ n : Nat, n < 3 → ∃ (nd : TreeNode) (e e1 : SplitEntry),
        depth1Tree.nodes[n]? = some nd ∧ depth1Spread.snode[n]? = some e ∧
        b1.snode[n]? = some e1 ∧
        (nd.is_root = true →
          e1 = { e with
            weight := depth1Spread.param.CalcWeight
              (nodeSum depth1Spread.position depth1Spread.grad n)
              (nodeSum depth1Spread.position depth1Spread.hess n) 0,
            loss_gain := depth1Spread.param.CalcGain
              (nodeSum depth1Spread.position depth1Spread.grad n)
              (nodeSum depth1Spread.position depth1Spread.hess n) 0 }) ∧
        (nd.is_root = false → ∃ pe,
          (if nd.parent < n then b1.snode[nd.parent]? else depth1Spread.snode[nd.parent]?) =
            some pe ∧
          e1 = { e with
            weight := depth1Spread.param.CalcWeight
              (nodeSum depth1Spread.position depth1Spread.grad n)
              (nodeSum depth1Spread.position depth1Spread.hess n) pe.weight }) :=
  have hr : ColTreeMaker.UpdateSNode.InRange depth1Spread (fun _ => 0) depth1Tree
      ((List.range 3).map Int.ofNat) := by
    unfold ColTreeMaker.UpdateSNode.InRange
    decide
  have hN : depth1Spread.position.length < 2 ^ 32 := by decide
  ⟨hr, hN, ColTreeMaker.UpdateSNode_loss_gain _ _ _ 3 hr hN⟩

/-- C7: in the depth-1 state of C5 (distinct queued ids 1 and 2, every instance at a
queued node) the totals that `UpdateSNode` reduces are those of the indices 0 and 1,
`(7, 3)` and `(1, 1)`: their hessians add up to 4, while the hessians of the active
instances add up to 3. -/
theorem ColTreeMaker.UpdateSNode_totals_not_conserved :
    ColTreeMaker.UpdateSNode.totals (depth1Builder (l2Param 2 1) [1, 2, 2]) (fun _ => 0)
        [1, 2] = some [(7, 3), (1, 1)] ∧
    (ColTreeMaker.UpdateSNode.totals (depth1Builder (l2Param 2 1) [1, 2, 2]) (fun _ => 0)
        [1, 2]).map (fun l => (l.map Prod.snd).sum) = some 4 ∧
    activeSum [1, 2, 2] [1, 1, 1] = 3 := by
  refine ⟨?_, ?_, ?_⟩ <;> with_unfolding_all decide

theorem ColTreeMaker.UpdateSNode.step1_congr (tid : Nat → Nat) (grad hess grad1 hess1 : List ℚ) :
    ∀ (ps : List Int) (i : Nat) (st : List (List ThreadEntry)),
      (∀ k, ∀ hk : k < ps.length, 0 ≤ ps[k] →
        grad1[i + k]? = grad[i + k]? ∧ hess1[i + k]? = hess[i + k]?) →
      ColTreeMaker.UpdateSNode.step1 tid grad1 hess1 i ps st =
        ColTreeMaker.UpdateSNode.step1 tid grad hess i ps st
  | [], i, st, _ => rfl
  | p :: ps, i, st, h => by
    have hshift : ∀ k, ∀ hk : k < ps.length, 0 ≤ ps[k] →
        grad1[i + 1 + k]? = grad[i + 1 + k]? ∧ hess1[i + 1 + k]? = hess[i + 1 + k]? := by
      intro k hk hpos
      have hk1 : k + 1 < (p :: ps).length := by simpa using hk
      have := h (k + 1) hk1 (by simpa using hpos)
      have e : i + (k + 1) = i + 1 + k := by omega
      rw [e] at this
      exact this
    unfold ColTreeMaker.UpdateSNode.step1
    by_cases hp : p < 0
    · rw [if_pos hp, if_pos hp]
      exact ColTreeMaker.UpdateSNode.step1_congr tid grad hess grad1 hess1 ps (i + 1) st hshift
    · rw [if_neg hp, if_neg hp]
      have h0 := h 0 (by simp) (by simpa using not_lt.mp hp)
      simp only [Nat.add_zero] at h0
      rw [h0.1, h0.2]
      cases grad[i]? with
      | none => rfl
      | some g =>
        cases hess[i]? with
        | none => rfl
        | some hv =>
          simp only []
          congr 1
          funext st1
          exact ColTreeMaker.UpdateSNode.step1_congr tid grad hess grad1 hess1 ps (i + 1) st1 hshift

/-- C8: instances with a negative position contribute nothing. If two builders differ
only in `grad` and `hess`, and these agree at every instance whose position is not
negative, then `UpdateSNode` behaves identically on both: it fails on both or returns
on both with the same worker tables and the same `snode`. -/
theorem ColTreeMaker.UpdateSNode_ignores_inactive (b : ColTreeMaker) (tid : Nat → Nat)
    (tree : RegTree) (q : List Int) (grad1 hess1 : List ℚ)
    (h : ∀ i, ∀ hi : i < b.position.length, 0 ≤ b.position[i] →
      grad1[i]? = b.grad[i]? ∧ hess1[i]? = b.hess[i]?) :
    (({ b with grad := grad1, hess := hess1 } : ColTreeMaker).UpdateSNode tid tree q).map
        (fun r => (r.stemp, r.snode)) =
      (b.UpdateSNode tid tree q).map (fun r => (r.stemp, r.snode)) := by
  have hs : ∀ st : List (List ThreadEntry),
      ColTreeMaker.UpdateSNode.step1 tid grad1 hess1 0
          (b.position.take (b.position.length % 2 ^ 32)) st =
        ColTreeMaker.UpdateSNode.step1 tid b.grad b.hess 0
          (b.position.take (b.position.length % 2 ^ 32)) st := by
    intro st
    apply ColTreeMaker.UpdateSNode.step1_congr
    intro k hk hpos
    have hk2 : k < b.position.length := by
      rw [List.length_take] at hk
      omega
    rw [List.getElem_take] at hpos
    simpa using h k hk2 hpos
  simp only [ColTreeMaker.UpdateSNode, ColTreeMaker.CleanSTemp, ColTreeMaker.UpdateSNode.ndata]
  cases ColTreeMaker.CleanSTemp.outer q b.stemp with
  | none => rfl
  | some c =>
    simp only [Option.map_some', Option.some_bind, hs]
    cases ColTreeMaker.UpdateSNode.step1 tid b.grad b.hess 0
        (b.position.take (b.position.length % 2 ^ 32)) c with
    | none => rfl
    | some st =>
      simp only [Option.some_bind]
      cases ColTreeMaker.UpdateSNode.step2 b.param tree st q.length 0 b.snode with
      | none => rfl
      | some sn => rfl

/-- Witness of C8: instance 1 is inactive and its gradient and hessian are changed. -/
theorem ColTreeMaker.UpdateSNode_ignores_inactive_witness :
    (∀ i, ∀ hi : i < (depth1Builder (l2Param 2 1) [1, -1, 2]).position.length,
      0 ≤ (depth1Builder (l2Param 2 1) [1, -1, 2]).position[i] →
      ([1, 100, 4] : List ℚ)[i]? = (depth1Builder (l2Param 2 1) [1, -1, 2]).grad[i]? ∧
      ([1, 7, 1] : List ℚ)[i]? = (depth1Builder (l2Param 2 1) [1, -1, 2]).hess[i]?) ∧
    (({ depth1Builder (l2Param 2 1) [1, -1, 2] with grad := [1, 100, 4], hess := [1, 7, 1] } :
        ColTreeMaker).UpdateSNode (fun _ => 0) depth1Tree [1, 2]).map
        (fun r => (r.stemp, r.snode)) =
      ((depth1Builder (l2Param 2 1) [1, -1, 2]).UpdateSNode (fun _ => 0) depth1Tree [1, 2]).map
        (fun r => (r.stemp, r.snode)) :=
  have hyp : ∀ i, ∀ hi : i < (depth1Builder (l2Param 2 1) [1, -1, 2]).position.length,
      0 ≤ (depth1Builder (l2Param 2 1) [1, -1, 2]).position[i] →
      ([1, 100, 4] : List ℚ)[i]? = (depth1Builder (l2Param 2 1) [1, -1, 2]).grad[i]? ∧
      ([1, 7, 1] : List ℚ)[i]? = (depth1Builder (l2Param 2 1) [1, -1, 2]).hess[i]? := by
    with_unfolding_all decide
  ⟨hyp, ColTreeMaker.UpdateSNode_ignores_inactive _ _ _ _ _ _ hyp⟩

/-- C9: at depth 2 (queue `[3, 4]`, instance 0 resting at the leaf 1, L2 strength 1) one
run of `UpdateSNode` gives node 1 the weight `-2/3` and a second run gives it `-3/4`:
the second loop reads the table entries 0 and 1, which `CleanSTemp` did not clear, and
entry 1 grows by the statistics of instance 0 at every run. -/
theorem ColTreeMaker.UpdateSNode_twice_differs :
    (depth2Builder.UpdateSNode (fun _ => 0) depth2Tree [3, 4]).map
        (fun b => b.snode.map (fun e => e.weight)) = some [-7/4, -2/3, -2, 0, 0] ∧
    ((depth2Builder.UpdateSNode (fun _ => 0) depth2Tree [3, 4]).bind
        (fun b => b.UpdateSNode (fun _ => 0) depth2Tree [3, 4])).map
        (fun b => b.snode.map (fun e => e.weight)) = some [-7/4, -3/4, -2, 0, 0] := by
  constructor <;> with_unfolding_all decide

/-- C10: at depth 1 with every instance at node 1 and the weight formula
`(p - G) / (H + 1)`, the queued node 2 holds no instance and its parent's stored weight
is `-7/4`, so the claim asks for the weight `CalcWeight(0, 0, -7/4) = -7/4`; after
`UpdateSNode` its weight is still 0, because the second loop never visits index 2. -/
theorem ColTreeMaker.UpdateSNode_misses_empty_node :
    ((depth1Builder coupledParam [1, 1, 1]).UpdateSNode (fun _ => 0) depth1Tree [1, 2]).map
        (fun b => b.snode.map (fun e => e.weight)) = some [-7/4, -35/16, 0] ∧
    nodeSum [1, 1, 1] [1, 2, 4] 2 = 0 ∧ nodeSum [1, 1, 1] [1, 1, 1] 2 = 0 ∧
    (depth1Tree.nodes[2]?).map TreeNode.parent = some 0 ∧
    coupledParam.CalcWeight 0 0 (-7/4) = -7/4 := by
  refine ⟨?_, ?_, ?_, ?_, ?_⟩ <;> with_unfolding_all decide

/-! ## The packed split record -/

theorem and_low_mask (x : Nat) : x &&& ((1 <<< 31) - 1) = x % 2 ^ 31 := by
  rw [Nat.one_shiftLeft, Nat.and_pow_two_sub_one_eq_mod]

theorem or_top_bit_mod (x : Nat) : (x ||| (1 <<< 31)) % 2 ^ 31 = x % 2 ^ 31 := by
  apply Nat.eq_of_testBit_eq
  intro i
  rw [Nat.one_shiftLeft]
  simp only [Nat.testBit_mod_two_pow, Nat.testBit_or, Nat.testBit_two_pow]
  by_cases hi : i < 31
  · have : ¬ (31 = i) := by omega
    simp [hi, this]
  · simp [hi]

theorem or_top_bit_ge (x : Nat) : 2 ^ 31 ≤ x ||| (1 <<< 31) := by
  apply Nat.testBit_implies_ge
  rw [Nat.one_shiftLeft, Nat.testBit_or, Nat.testBit_two_pow]
  simp

theorem shiftRight_31_ne_zero (x : Nat) : ((x >>> 31) != 0) = decide (2 ^ 31 ≤ x) := by
  rw [Nat.shiftRight_eq_div_pow]
  by_cases h : 2 ^ 31 ≤ x
  · rw [decide_eq_true h, bne_iff_ne]
    omega
  · rw [decide_eq_false h, Nat.div_eq_of_lt (by omega)]
    rfl

/-- C18: the packed split record round-trips. After `SetSplit(idx, v, d)` the entry has
`split_value == v` and its `loss_gain` and `weight` are unchanged; for `idx < 2^31` it
reports `split_index() == idx` and `default_left() == d`; for `idx >= 2^31` the top bit
of the index is read as the flag, so `split_index() == idx mod 2^31` and
`default_left()` is true whatever `d` was. -/
theorem SplitEntry.SetSplit_roundtrip (e : SplitEntry) (idx : Nat) (v : ℚ) (d : Bool) :
    (e.SetSplit idx v d).split_value = v ∧
    (e.SetSplit idx v d).loss_gain = e.loss_gain ∧
    (e.SetSplit idx v d).weight = e.weight ∧
    (idx < 2 ^ 31 →
      (e.SetSplit idx v d).split_index = idx ∧ (e.SetSplit idx v d).default_left = d) ∧
    (2 ^ 31 ≤ idx →
      (e.SetSplit idx v d).split_index = idx % 2 ^ 31 ∧
      (e.SetSplit idx v d).default_left = true) := by
  refine ⟨rfl, rfl, rfl, ?_, ?_⟩
  · intro h
    cases d with
    | false =>
      simp only [SplitEntry.SetSplit, SplitEntry.split_index, SplitEntry.default_left,
        and_low_mask, shiftRight_31_ne_zero]
      exact ⟨Nat.mod_eq_of_lt h, by simp; omega⟩
    | true =>
      simp only [SplitEntry.SetSplit, SplitEntry.split_index, SplitEntry.default_left,
        and_low_mask, shiftRight_31_ne_zero, or_top_bit_mod, if_true]
      exact ⟨Nat.mod_eq_of_lt h, by simpa using or_top_bit_ge idx⟩
  · intro h
    cases d with
    | false =>
      simp only [SplitEntry.SetSplit, SplitEntry.split_index, SplitEntry.default_left,
        and_low_mask, shiftRight_31_ne_zero]
      exact ⟨by simp, by simpa using h⟩
    | true =>
      simp only [SplitEntry.SetSplit, SplitEntry.split_index, SplitEntry.default_left,
        and_low_mask, shiftRight_31_ne_zero, or_top_bit_mod, if_true]
      exact ⟨trivial, by simpa using or_top_bit_ge idx⟩

/-! ## The frame of `CleanSTemp` -/

theorem ColTreeMaker.CleanSTemp.outer_get (q : List Int) :
    ∀ (st cs : List (List ThreadEntry)), ColTreeMaker.CleanSTemp.outer q st = some cs →
      cs.length = st.length ∧
      ∀ (t : Nat) (row : List ThreadEntry), st[t]? = some row →
        ∃ row1, cs[t]? = some row1 ∧ ColTreeMaker.CleanSTemp.inner row q = some row1
  | [], cs, h => by
    simp only [ColTreeMaker.CleanSTemp.outer, Option.some.injEq] at h
    subst h
    simp
  | row0 :: rest, cs, h => by
    simp only [ColTreeMaker.CleanSTemp.outer, Option.bind_eq_some, Option.map_eq_some'] at h
    obtain ⟨row1, h1, rest1, h2, rfl⟩ := h
    obtain ⟨hlen, hget⟩ := ColTreeMaker.CleanSTemp.outer_get q rest rest1 h2
    refine ⟨by simp [hlen], ?_⟩
    intro t row hrow
    cases t with
    | zero =>
      simp only [List.getElem?_cons_zero, Option.some.injEq] at hrow
      subst hrow
      exact ⟨row1, List.getElem?_cons_zero, h1⟩
    | succ t =>
      simp only [List.getElem?_cons_succ] at hrow
      simpa using hget t row hrow

/-- C14: when every queued id is an index of every worker table, `CleanSTemp(qexpand)`
returns and changes the worker tables only: their number and sizes are unchanged, an
entry whose id is in `qexpand` gets `sum_grad = sum_hess = 0` and keeps its `best` and
`last_fvalue`, and every other entry is unchanged. -/
theorem ColTreeMaker.CleanSTemp_frame (b : ColTreeMaker) (q : List Int)
    (hr : ∀ row ∈ b.stemp, ∀ a ∈ q, 0 ≤ a ∧ a.toNat < row.length) :
    ∃ b1, b.CleanSTemp q = some b1 ∧
      b1 = { b with stemp := b1.stemp } ∧
      b1.stemp.length = b.stemp.length ∧
      ∀ (t : Nat) (row : List ThreadEntry), b.stemp[t]? = some row →
        ∃ row1, b1.stemp[t]? = some row1 ∧ row1.length = row.length ∧
          ∀ (n : Nat) (e : ThreadEntry), row[n]? = some e →
            ∃ e1, row1[n]? = some e1 ∧ e1.best = e.best ∧ e1.last_fvalue = e.last_fvalue ∧
              ((n : Int) ∈ q → e1.sum_grad = 0 ∧ e1.sum_hess = 0) ∧
              ((n : Int) ∉ q → e1 = e) := by
  obtain ⟨c, hc⟩ := ColTreeMaker.CleanSTemp.outer_succeeds q b.stemp hr
  obtain ⟨hlen, hget⟩ := ColTreeMaker.CleanSTemp.outer_get q b.stemp c hc
  refine ⟨{ b with stemp := c }, by simp [ColTreeMaker.CleanSTemp, hc], rfl, hlen, ?_⟩
  intro t row hrow
  obtain ⟨row1, hrow1, hinner⟩ := hget t row hrow
  obtain ⟨hl, hg⟩ := ColTreeMaker.CleanSTemp.inner_get q row row1 hinner
  refine ⟨row1, hrow1, hl, ?_⟩
  intro n e he
  by_cases hn : (n : Int) ∈ q
  · refine ⟨e.zeroSums, ?_, rfl, rfl, fun _ => ⟨rfl, rfl⟩, fun h => absurd hn h⟩
    rw [hg n, if_pos hn, he]
    rfl
  · refine ⟨e, ?_, rfl, rfl, fun h => absurd h hn, fun _ => rfl⟩
    rw [hg n, if_neg hn, he]

/-- Witness of C14: one worker table of three entries, the ids 1 and 2 queued. -/
theorem ColTreeMaker.CleanSTemp_frame_witness :
    (∀ row ∈ (depth1Builder (l2Param 2 1) [1, 2, 2]).stemp, ∀ a ∈ ([1, 2] : List Int),
      0 ≤ a ∧ a.toNat < row.length) ∧
    ∃ b1, (depth1Builder (l2Param 2 1) [1, 2, 2]).CleanSTemp [1, 2] = some b1 ∧
      b1 = { depth1Builder (l2Param 2 1) [1, 2, 2] with stemp := b1.stemp } ∧
      b1.stemp.length = (depth1Builder (l2Param 2 1) [1, 2, 2]).stemp.length ∧
      ∀ (t : Nat) (row : List ThreadEntry),
        (depth1Builder (l2Param 2 1) [1, 2, 2]).stemp[t]? = some row →
        ∃ row1, b1.stemp[t]? = some row1 ∧ row1.length = row.length ∧
          ∀ (n : Nat) (e : ThreadEntry), row[n]? = some e →
            ∃ e1, row1[n]? = some e1 ∧ e1.best = e.best ∧ e1.last_fvalue = e.last_fvalue ∧
              ((n : Int) ∈ ([1, 2] : List Int) → e1.sum_grad = 0 ∧ e1.sum_hess = 0) ∧
              ((n : Int) ∉ ([1, 2] : List Int) → e1 = e) :=
  have hr : ∀ row ∈ (depth1Builder (l2Param 2 1) [1, 2, 2]).stemp, ∀ a ∈ ([1, 2] : List Int),
      0 ≤ a ∧ a.toNat < row.length := by
    decide
  ⟨hr, ColTreeMaker.CleanSTemp_frame _ _ hr⟩

/-! ## `InitData` -/

theorem resize_length {α : Type} (xs : List α) (n : Nat) (d : α) : (resize xs n d).length = n := by
  simp only [resize, List.length_append, List.length_take, List.length_replicate]
  omega

theorem mapM_resizeInt {α : Type} (n : Int) (d : α) (hn : 0 ≤ n) :
    ∀ l : List (List α), l.mapM (fun t => resizeInt t n d) =
      Except.ok (l.map (fun t => resize t n.toNat d))
  | [] => rfl
  | t :: l => by
    rw [List.mapM_cons, mapM_resizeInt n d hn l]
    simp only [resizeInt, if_neg (not_lt.mpr hn)]
    rfl

theorem mapM_resizeInt_neg {α : Type} (n : Int) (d : α) (hn : n < 0) :
    ∀ l : List (List α), l ≠ [] → l.mapM (fun t => resizeInt t n d) = Except.error Fault.lengthError
  | [], h => absurd rfl h
  | t :: l, _ => by
    rw [List.mapM_cons]
    simp only [resizeInt, if_pos hn]
    rfl

theorem ColTreeMaker.InitData.roots_append (nr : Int) :
    ∀ (rs : List Nat) (pre mid post : List Int), mid.length = rs.length →
      ColTreeMaker.InitData.roots nr pre.length rs (pre ++ mid ++ post) =
        if ∀ r ∈ rs, r < toUInt32 nr then Except.ok (pre ++ rs.map toInt32 ++ post)
        else Except.error (Fault.assertError "root index exceed setting")
  | [], pre, mid, post, h => by
    have : mid = [] := List.length_eq_zero.mp (by simpa using h)
    subst this
    simp [ColTreeMaker.InitData.roots]
  | r :: rs, pre, mid, post, h => by
    cases mid with
    | nil => simp at h
    | cons m mid =>
      have hlen : mid.length = rs.length := by simpa using h
      have hlt : pre.length < (pre ++ m :: mid ++ post).length := by simp
      have hset : (pre ++ m :: mid ++ post).set pre.length (toInt32 r) =
          (pre ++ [toInt32 r]) ++ mid ++ post := by
        simp [List.set_append]
      unfold ColTreeMaker.InitData.roots
      rw [if_pos hlt]
      simp only [hset]
      have ih := ColTreeMaker.InitData.roots_append nr rs (pre ++ [toInt32 r]) mid post hlen
      simp only [List.length_append, List.length_singleton] at ih
      by_cases hr : r < toUInt32 nr
      · simp only [Assert, decide_eq_true hr, if_true, Except.bind, ih]
        by_cases hall : ∀ x ∈ rs, x < toUInt32 nr
        · have hall2 : ∀ x ∈ r :: rs, x < toUInt32 nr := by
            intro x hx
            rcases List.mem_cons.mp hx with rfl | hx
            · exact hr
            · exact hall x hx
          rw [if_pos hall, if_pos hall2]
          simp
        · have hall2 : ¬ ∀ x ∈ r :: rs, x < toUInt32 nr :=
            fun h2 => hall (fun x hx => h2 x (List.mem_cons_of_mem _ hx))
          rw [if_neg hall, if_neg hall2]
      · have hall2 : ¬ ∀ x ∈ r :: rs, x < toUInt32 nr :=
          fun h2 => hr (h2 r (List.mem_cons_self _ _))
        simp only [Assert, decide_eq_false hr, Except.bind, if_neg hall2]
        rfl

theorem ColTreeMaker.InitData.roots_all (nr : Int) (rs : List Nat) (pos : List Int)
    (h : pos.length = rs.length) :
    ColTreeMaker.InitData.roots nr 0 rs pos =
      if ∀ r ∈ rs, r < toUInt32 nr then Except.ok (rs.map toInt32)
      else Except.error (Fault.assertError "root index exceed setting") := by
  have := ColTreeMaker.InitData.roots_append nr rs [] pos [] h
  simpa using this

theorem toUInt32_of_nonneg (n : Int) (h0 : 0 ≤ n) (h : n < 2 ^ 31) :
    ((toUInt32 n : Nat) : Int) = n := by
  unfold toUInt32
  rw [Int.emod_eq_of_lt h0 (by omega)]
  exact Int.toNat_of_nonneg h0

theorem toInt32_of_lt (r : Nat) (h : r < 2 ^ 31) : toInt32 r = (r : Int) := by
  unfold toInt32
  have h1 : r % 2 ^ 32 = r := Nat.mod_eq_of_lt (by omega)
  rw [h1, if_pos h]

theorem ColTreeMaker.InitData_eq (b : ColTreeMaker) (Shuffle : List Int → List Int)
    (nthread : Nat) (junk : ℚ) (tree : RegTree)
    (hlen : b.root_index = [] ∨ b.root_index.length = b.grad.length)
    (h0 : 0 ≤ tree.num_roots) :
    b.InitData Shuffle nthread junk tree =
      (if ∀ r ∈ b.root_index, r < toUInt32 tree.num_roots then
          Except.ok (ColTreeMaker.InitData.result b Shuffle nthread junk tree)
        else Except.error (Fault.assertError "root index exceed setting"), tree) := by
  unfold ColTreeMaker.InitData
  congr 1
  have hsn : resizeInt b.snode tree.num_roots SplitEntry.ctor =
      Except.ok (resize b.snode tree.num_roots.toNat SplitEntry.ctor) := by
    simp only [resizeInt, if_neg (not_lt.mpr h0)]
  by_cases he : b.root_index = []
  · have hz : b.root_index.length = 0 := by simp [he]
    simp only [hz, beq_self_eq_true, if_true, he, List.not_mem_nil, false_imp_iff, imp_true_iff,
      mapM_resizeInt _ _ h0, hsn, resize_length, ColTreeMaker.InitData.result]
    rfl
  · have hz : ¬ b.root_index.length = 0 := by simpa using he
    have hl : (resize b.position b.grad.length 0).length = b.root_index.length := by
      rw [resize_length]
      rcases hlen with h | h
      · exact absurd h he
      · exact h.symm
    simp only [beq_iff_eq, hz, if_false, ColTreeMaker.InitData.roots_all _ _ _ hl,
      mapM_resizeInt _ _ h0, hsn, ColTreeMaker.InitData.result]
    by_cases hall : ∀ r ∈ b.root_index, r < toUInt32 tree.num_roots
    · simp only [if_pos hall]
      rfl
    · simp only [if_neg hall]
      rfl

theorem ColTreeMaker.InitData_nonneg {b b1 : ColTreeMaker} {Shuffle : List Int → List Int}
    {nthread : Nat} {junk : ℚ} {tree : RegTree}
    (h : (b.InitData Shuffle nthread junk tree).1 = Except.ok b1) : 0 ≤ tree.num_roots := by
  by_contra hneg
  have hlt : tree.num_roots < 0 := not_le.mp hneg
  have hsn : resizeInt b.snode tree.num_roots SplitEntry.ctor =
      Except.error Fault.lengthError := by
    simp only [resizeInt, if_pos hlt]
  unfold ColTreeMaker.InitData at h
  simp only [hsn, bind, Except.bind] at h
  repeat' split at h
  all_goals exact Except.noConfusion h

theorem ColTreeMaker.ctor_eq_ok {tree : RegTree} {param : TreeParamTrain} {grad hess : List ℚ}
    {smat : FMatrix} {root_index : List Nat} {b : ColTreeMaker}
    (h : (ColTreeMaker.ctor tree param grad hess smat root_index).1 = Except.ok b) :
    b = { qexpand := [], feat_index := [], position := [], snode := [], stemp := [],
          param := param, grad := grad, hess := hess, smat := smat,
          root_index := root_index } ∧
    grad.length = hess.length ∧ smat.NumRow = hess.length ∧
    (root_index = [] ∨ root_index.length = hess.length) ∧ smat.HaveColAccess = true := by
  by_cases h1 : grad.length = hess.length <;>
  by_cases h2 : smat.NumRow = hess.length <;>
  by_cases h3 : (root_index = [] ∨ root_index.length = hess.length) <;>
  by_cases h4 : smat.HaveColAccess = true <;>
  simp [ColTreeMaker.ctor, Assert, bind, Except.bind, pure, Except.pure, h1, h2, h3, h4,
    List.length_eq_zero] at h
  exact ⟨h.symm, h1, h2, h3, h4⟩

theorem ColTreeMaker.InitData_ok {b b1 : ColTreeMaker} {Shuffle : List Int → List Int}
    {nthread : Nat} {junk : ℚ} {tree : RegTree}
    (hlen : b.root_index = [] ∨ b.root_index.length = b.grad.length)
    (h : (b.InitData Shuffle nthread junk tree).1 = Except.ok b1) :
    0 ≤ tree.num_roots ∧ (∀ r ∈ b.root_index, r < toUInt32 tree.num_roots) ∧
    b1 = ColTreeMaker.InitData.result b Shuffle nthread junk tree := by
  have h0 := ColTreeMaker.InitData_nonneg h
  rw [ColTreeMaker.InitData_eq b Shuffle nthread junk tree hlen h0] at h
  by_cases hall : ∀ r ∈ b.root_index, r < toUInt32 tree.num_roots
  · simp only [if_pos hall, Except.ok.injEq] at h
    exact ⟨h0, hall, h.symm⟩
  · simp only [if_neg hall] at h
    exact Except.noConfusion h

theorem ColTreeMaker.InitData.result_position (b : ColTreeMaker)
    (Shuffle : List Int → List Int) (nthread : Nat) (junk : ℚ) (tree : RegTree)
    (hlen : b.root_index = [] ∨ b.root_index.length = b.grad.length)
    (hall : ∀ r ∈ b.root_index, r < toUInt32 tree.num_roots)
    (h1 : 1 ≤ tree.num_roots) (h31 : tree.num_roots < 2 ^ 31) :
    (ColTreeMaker.InitData.result b Shuffle nthread junk tree).position.length = b.grad.length ∧
    (b.root_index = [] →
      ∀ p ∈ (ColTreeMaker.InitData.result b Shuffle nthread junk tree).position, p = 0) ∧
    (b.root_index ≠ [] →
      (ColTreeMaker.InitData.result b Shuffle nthread junk tree).position =
        b.root_index.map Int.ofNat) ∧
    (∀ p ∈ (ColTreeMaker.InitData.result b Shuffle nthread junk tree).position,
      0 ≤ p ∧ p < tree.num_roots) := by
  have hcast := toUInt32_of_nonneg tree.num_roots (by omega) h31
  have hmap : b.root_index.map toInt32 = b.root_index.map Int.ofNat := by
    apply List.map_congr_left
    intro r hr
    have hr1 := hall r hr
    apply toInt32_of_lt
    have : ((r : Nat) : Int) < tree.num_roots := by
      rw [← hcast]
      exact_mod_cast hr1
    omega
  by_cases he : b.root_index = []
  · have hz : b.root_index.length = 0 := by simp [he]
    have hpos : (ColTreeMaker.InitData.result b Shuffle nthread junk tree).position =
        List.replicate b.grad.length (0 : Int) := by
      simp [ColTreeMaker.InitData.result, hz]
    rw [hpos]
    refine ⟨by simp, fun _ p hp => (List.mem_replicate.mp hp).2, fun h => absurd he h, ?_⟩
    intro p hp
    rw [(List.mem_replicate.mp hp).2]
    omega
  · have hz : ¬ b.root_index.length = 0 := by simpa using he
    have hpos : (ColTreeMaker.InitData.result b Shuffle nthread junk tree).position =
        b.root_index.map Int.ofNat := by
      simp only [ColTreeMaker.InitData.result, beq_iff_eq, hz, if_false, hmap]
    rw [hpos]
    refine ⟨?_, fun h => absurd h he, fun _ => rfl, ?_⟩
    · rcases hlen with h | h
      · exact absurd h he
      · simpa using h
    · intro p hp
      obtain ⟨r, hr, rfl⟩ := List.mem_map.mp hp
      have hr1 := hall r hr
      have : ((r : Nat) : Int) < tree.num_roots := by
        rw [← hcast]
        exact_mod_cast hr1
      show (0 : Int) ≤ (r : Int) ∧ (r : Int) < tree.num_roots
      omega

/-- C11: for an input accepted by the constructor with `1 <= num_roots` on which
`InitData` succeeds, `position` is as long as `grad` and `hess`, it is 0 everywhere
when `root_index` is empty and equals `root_index` otherwise, and every position lies
in `[0, num_roots)`. (`num_roots` is an `int`, hence below 2^31.) -/
theorem ColTreeMaker.InitData_position (tree : RegTree) (param : TreeParamTrain)
    (grad hess : List ℚ) (smat : FMatrix) (root_index : List Nat) (b b1 : ColTreeMaker)
    (Shuffle : List Int → List Int) (nthread : Nat) (junk : ℚ)
    (hc : (ColTreeMaker.ctor tree param grad hess smat root_index).1 = Except.ok b)
    (h1 : 1 ≤ tree.num_roots) (h31 : tree.num_roots < 2 ^ 31)
    (hi : (b.InitData Shuffle nthread junk tree).1 = Except.ok b1) :
    b1.position.length = grad.length ∧ b1.position.length = hess.length ∧
    (root_index = [] → ∀ p ∈ b1.position, p = 0) ∧
    (root_index ≠ [] → b1.position = root_index.map Int.ofNat) ∧
    (∀ p ∈ b1.position, 0 ≤ p ∧ p < tree.num_roots) := by
  obtain ⟨hb, hgh, -, hroot, -⟩ := ColTreeMaker.ctor_eq_ok hc
  have hg : b.grad = grad := by rw [hb]
  have hri : b.root_index = root_index := by rw [hb]
  have hlen : b.root_index = [] ∨ b.root_index.length = b.grad.length := by
    rw [hg, hri, hgh]
    exact hroot
  obtain ⟨-, hall, rfl⟩ := ColTreeMaker.InitData_ok hlen hi
  obtain ⟨hl, hz, hm, hr⟩ := ColTreeMaker.InitData.result_position b Shuffle nthread junk tree
    hlen hall h1 h31
  rw [hg] at hl
  rw [hri] at hz hm
  exact ⟨hl, by rw [hl, hgh], hz, hm, hr⟩

/-- Witness of C11: three instances assigned to the roots 0, 1, 0 of a two-root forest. -/
theorem ColTreeMaker.InitData_position_witness :
    (ColTreeMaker.InitData.result rootedBuilder id 2 0 twoRootTree).position.length =
      ([1, 2, 4] : List ℚ).length ∧
    (ColTreeMaker.InitData.result rootedBuilder id 2 0 twoRootTree).position.length =
      ([1, 1, 1] : List ℚ).length ∧
    (([0, 1, 0] : List Nat) = [] →
      ∀ p ∈ (ColTreeMaker.InitData.result rootedBuilder id 2 0 twoRootTree).position, p = 0) ∧
    (([0, 1, 0] : List Nat) ≠ [] →
      (ColTreeMaker.InitData.result rootedBuilder id 2 0 twoRootTree).position =
        ([0, 1, 0] : List Nat).map Int.ofNat) ∧
    (∀ p ∈ (ColTreeMaker.InitData.result rootedBuilder id 2 0 twoRootTree).position,
      0 ≤ p ∧ p < twoRootTree.num_roots) :=
  ColTreeMaker.InitData_position twoRootTree (l2Param 1 0) [1, 2, 4] [1, 1, 1]
    rootedBuilder.smat [0, 1, 0] rootedBuilder
    (ColTreeMaker.InitData.result rootedBuilder id 2 0 twoRootTree) id 2 0
    (by with_unfolding_all rfl) (by decide) (by decide) (by with_unfolding_all rfl)

/-- C12 (amended): after a successful `InitData` on a freshly constructed builder, when
`random::Shuffle` only permutes its argument and the column count is below 2^31 (it
fits the `int` that `InitData` casts it to), `feat_index` is a permutation without
duplicates of exactly the column indices `i` in `[0, NumCol())` whose sorted column has
an entry. -/
theorem ColTreeMaker.InitData_feat_index (tree : RegTree) (param : TreeParamTrain)
    (grad hess : List ℚ) (smat : FMatrix) (root_index : List Nat) (b b1 : ColTreeMaker)
    (Shuffle : List Int → List Int) (nthread : Nat) (junk : ℚ)
    (hc : (ColTreeMaker.ctor tree param grad hess smat root_index).1 = Except.ok b)
    (hperm : ∀ l, (Shuffle l).Perm l) (hcol : smat.NumCol < 2 ^ 31)
    (hi : (b.InitData Shuffle nthread junk tree).1 = Except.ok b1) :
    b1.feat_index.Perm (((List.range smat.NumCol).filter
      (fun i => !(smat.GetSortedCol i).isEmpty)).map Int.ofNat) ∧
    b1.feat_index.Nodup ∧
    ∀ x : Int, x ∈ b1.feat_index ↔
      ∃ i : Nat, x = (i : Int) ∧ i < smat.NumCol ∧ smat.GetSortedCol i ≠ [] := by
  obtain ⟨hb, hgh, -, hroot, -⟩ := ColTreeMaker.ctor_eq_ok hc
  have hg : b.grad = grad := by rw [hb]
  have hri : b.root_index = root_index := by rw [hb]
  have hfi : b.feat_index = [] := by rw [hb]
  have hsm : b.smat = smat := by rw [hb]
  have hlen : b.root_index = [] ∨ b.root_index.length = b.grad.length := by
    rw [hg, hri, hgh]
    exact hroot
  obtain ⟨-, -, rfl⟩ := ColTreeMaker.InitData_ok hlen hi
  have hn : (toInt32 smat.NumCol).toNat = smat.NumCol := by
    rw [toInt32_of_lt _ hcol]
    exact Int.toNat_ofNat _
  have hfeat : (ColTreeMaker.InitData.result b Shuffle nthread junk tree).feat_index =
      Shuffle (((List.range smat.NumCol).filter
        (fun i => !(smat.GetSortedCol i).isEmpty)).map Int.ofNat) := by
    simp only [ColTreeMaker.InitData.result, hfi, hsm, hn, List.nil_append]
  have hp := hperm (((List.range smat.NumCol).filter
    (fun i => !(smat.GetSortedCol i).isEmpty)).map Int.ofNat)
  rw [hfeat]
  have hnd : (((List.range smat.NumCol).filter
      (fun i => !(smat.GetSortedCol i).isEmpty)).map Int.ofNat).Nodup :=
    ((List.nodup_range smat.NumCol).filter _).map (fun a c h => Int.ofNat.inj h)
  refine ⟨hp, hp.nodup_iff.mpr hnd, ?_⟩
  intro x
  rw [hp.mem_iff, List.mem_map]
  constructor
  · rintro ⟨i, hi, rfl⟩
    rw [List.mem_filter, List.mem_range] at hi
    refine ⟨i, rfl, hi.1, ?_⟩
    intro he
    simp [he] at hi
  · rintro ⟨i, rfl, hlt, hne⟩
    refine ⟨i, ?_, rfl⟩
    rw [List.mem_filter, List.mem_range]
    refine ⟨hlt, ?_⟩
    cases hcase : smat.GetSortedCol i with
    | nil => exact absurd hcase hne
    | cons a l => rfl

/-- C12 (as stated, refuted): a column store that reports `NumCol() = 2^31` and whose
column 0 has an entry is accepted by the constructor and by `InitData`, but
`ncol = int(2^31)` is negative, the column loop runs no iteration and `feat_index` stays
empty: column 0 is in `[0, NumCol())` and has an entry, yet it is not in `feat_index`. -/
theorem ColTreeMaker.InitData_feat_index_wide :
    (ColTreeMaker.ctor freshTree (l2Param 1 0) [1] [1] wideMat []).1 = Except.ok wideBuilder ∧
    (wideBuilder.InitData id 1 0 freshTree).1 =
      Except.ok (ColTreeMaker.InitData.result wideBuilder id 1 0 freshTree) ∧
    (ColTreeMaker.InitData.result wideBuilder id 1 0 freshTree).feat_index = [] ∧
    0 < wideMat.NumCol ∧ wideMat.GetSortedCol 0 ≠ [] ∧
    ¬ ((0 : Int) ∈ (ColTreeMaker.InitData.result wideBuilder id 1 0 freshTree).feat_index ↔
      ∃ i : Nat, (0 : Int) = (i : Int) ∧ i < wideMat.NumCol ∧ wideMat.GetSortedCol i ≠ []) := by
  have hf : (ColTreeMaker.InitData.result wideBuilder id 1 0 freshTree).feat_index = [] := by
    with_unfolding_all rfl
  have hn : 0 < wideMat.NumCol := by
    show 0 < 2 ^ 31
    norm_num
  have h0 : wideMat.GetSortedCol 0 ≠ [] := by
    show (if (0 : Nat) = 0 then [((1 : ℚ), (0 : Nat))] else []) ≠ []
    rw [if_pos rfl]
    exact List.cons_ne_nil _ _
  refine ⟨by with_unfolding_all rfl, by with_unfolding_all rfl, hf, hn, h0, ?_⟩
  rw [hf]
  intro h
  exact absurd (h.mpr ⟨0, rfl, hn, h0⟩) (List.not_mem_nil _)

/-- Witness of C12 (amended): the scenario's column store has one column, which has
entries. -/
theorem ColTreeMaker.InitData_feat_index_witness :
    (ColTreeMaker.InitData.result scenarioBuilder id 1 0 freshTree).feat_index.Perm
      (((List.range scenarioMat.NumCol).filter
        (fun i => !(scenarioMat.GetSortedCol i).isEmpty)).map Int.ofNat) ∧
    (ColTreeMaker.InitData.result scenarioBuilder id 1 0 freshTree).feat_index.Nodup ∧
    ∀ x : Int, x ∈ (ColTreeMaker.InitData.result scenarioBuilder id 1 0 freshTree).feat_index ↔
      ∃ i : Nat, x = (i : Int) ∧ i < scenarioMat.NumCol ∧ scenarioMat.GetSortedCol i ≠ [] :=
  ColTreeMaker.InitData_feat_index freshTree (l2Param 1 0) scenarioGrad scenarioHess
    scenarioMat [] scenarioBuilder (ColTreeMaker.InitData.result scenarioBuilder id 1 0 freshTree)
    id 1 0 (by with_unfolding_all rfl) (fun l => List.Perm.refl l) (by decide)
    (by with_unfolding_all rfl)

/-- C13: for an input accepted by the constructor with `0 <= num_roots`, `InitData`
fails with "root index exceed setting" exactly when `root_index` is not empty and some
`root_index[i] >= num_roots`; otherwise it succeeds; in both cases the caller's tree is
what it was. (`num_roots` is an `int`, hence below 2^31.) -/
theorem ColTreeMaker.InitData_fails_iff (tree : RegTree) (param : TreeParamTrain)
    (grad hess : List ℚ) (smat : FMatrix) (root_index : List Nat) (b : ColTreeMaker)
    (Shuffle : List Int → List Int) (nthread : Nat) (junk : ℚ)
    (hc : (ColTreeMaker.ctor tree param grad hess smat root_index).1 = Except.ok b)
    (h0 : 0 ≤ tree.num_roots) (h31 : tree.num_roots < 2 ^ 31) :
    ((b.InitData Shuffle nthread junk tree).1 =
        Except.error (Fault.assertError "root index exceed setting") ↔
      (root_index ≠ [] ∧ ∃ r : Nat, r ∈ root_index ∧ tree.num_roots ≤ (r : Int))) ∧
    ((∃ b1, (b.InitData Shuffle nthread junk tree).1 = Except.ok b1) ∨
      (b.InitData Shuffle nthread junk tree).1 =
        Except.error (Fault.assertError "root index exceed setting")) ∧
    (b.InitData Shuffle nthread junk tree).2 = tree := by
  obtain ⟨hb, hgh, -, hroot, -⟩ := ColTreeMaker.ctor_eq_ok hc
  have hg : b.grad = grad := by rw [hb]
  have hri : b.root_index = root_index := by rw [hb]
  have hlen : b.root_index = [] ∨ b.root_index.length = b.grad.length := by
    rw [hg, hri, hgh]
    exact hroot
  have hcast := toUInt32_of_nonneg tree.num_roots h0 h31
  rw [ColTreeMaker.InitData_eq b Shuffle nthread junk tree hlen h0, hri]
  by_cases hall : ∀ r ∈ root_index, r < toUInt32 tree.num_roots
  · rw [if_pos hall]
    refine ⟨⟨fun h => Except.noConfusion h, ?_⟩, Or.inl ⟨_, rfl⟩, rfl⟩
    rintro ⟨-, r, hr, hle⟩
    have h1 := hall r hr
    have h2 : ((r : Nat) : Int) < tree.num_roots := by
      rw [← hcast]
      exact_mod_cast h1
    omega
  · rw [if_neg hall]
    refine ⟨⟨fun _ => ?_, fun _ => rfl⟩, Or.inr rfl, rfl⟩
    have hex : ∃ r, r ∈ root_index ∧ ¬ r < toUInt32 tree.num_roots := by
      by_contra hcon
      apply hall
      intro r hr
      by_contra hlt
      exact hcon ⟨r, hr, hlt⟩
    obtain ⟨r, hr, hlt⟩ := hex
    refine ⟨List.ne_nil_of_mem hr, r, hr, ?_⟩
    rw [← hcast]
    exact_mod_cast not_lt.mp hlt

/-- Witness of C13: the root assignment `[5]` with one root. -/
theorem ColTreeMaker.InitData_fails_iff_witness :
    ((badRootBuilder.InitData id 1 0 freshTree).1 =
        Except.error (Fault.assertError "root index exceed setting") ↔
      (([5] : List Nat) ≠ [] ∧
        ∃ r : Nat, r ∈ ([5] : List Nat) ∧ freshTree.num_roots ≤ (r : Int))) ∧
    ((∃ b1, (badRootBuilder.InitData id 1 0 freshTree).1 = Except.ok b1) ∨
      (badRootBuilder.InitData id 1 0 freshTree).1 =
        Except.error (Fault.assertError "root index exceed setting")) ∧
    (badRootBuilder.InitData id 1 0 freshTree).2 = freshTree :=
  ColTreeMaker.InitData_fails_iff freshTree (l2Param 1 0) [1] [1] oneRowMat [5] badRootBuilder
    id 1 0 (by with_unfolding_all rfl) (by decide) (by decide)

theorem resize_nil {α : Type} (n : Nat) (d : α) : resize ([] : List α) n d = List.replicate n d := by
  simp [resize]

theorem ColTreeMaker.InitData.result_fresh (b : ColTreeMaker) (Shuffle : List Int → List Int)
    (nthread : Nat) (junk : ℚ) (tree : RegTree) (hst : b.stemp = []) (hsn : b.snode = []) :
    (ColTreeMaker.InitData.result b Shuffle nthread junk tree).qexpand =
      (List.range tree.num_roots.toNat).map Int.ofNat ∧
    (ColTreeMaker.InitData.result b Shuffle nthread junk tree).snode =
      List.replicate tree.num_roots.toNat SplitEntry.ctor ∧
    (ColTreeMaker.InitData.result b Shuffle nthread junk tree).stemp =
      List.replicate nthread (List.replicate tree.num_roots.toNat (ThreadEntry.ctor junk)) := by
  refine ⟨rfl, ?_, ?_⟩
  · simp only [ColTreeMaker.InitData.result, hsn, resize_nil]
  · simp only [ColTreeMaker.InitData.result, hst, resize_nil, List.map_replicate]

theorem mem_range_ofNat {n : Nat} {q : Int} (h : q ∈ (List.range n).map Int.ofNat) :
    0 ≤ q ∧ q.toNat < n := by
  obtain ⟨i, hi, rfl⟩ := List.mem_map.mp h
  exact ⟨Int.ofNat_nonneg i, by simpa using List.mem_range.mp hi⟩

/-- C17 (as stated, refuted): on the four-instance scenario `InitData` succeeds with one
worker table `[ThreadEntry()]`, and when the uninitialised `last_fvalue` of the fresh
`ThreadEntry` holds 1 the entry of the table is not zero-initialised. -/
theorem ColTreeMaker.InitData_entry_not_zeroed :
    ColTreeMaker.ctor freshTree (l2Param 1 0) scenarioGrad scenarioHess scenarioMat [] =
      (Except.ok scenarioBuilder, freshTree) ∧
    (scenarioBuilder.InitData id 1 1 freshTree).1 =
      Except.ok (ColTreeMaker.InitData.result scenarioBuilder id 1 1 freshTree) ∧
    (ColTreeMaker.InitData.result scenarioBuilder id 1 1 freshTree).stemp =
      [[ThreadEntry.ctor 1]] ∧
    ¬ (∀ row ∈ (ColTreeMaker.InitData.result scenarioBuilder id 1 1 freshTree).stemp,
        ∀ e ∈ row, e = ({ sum_grad := 0, sum_hess := 0, last_fvalue := 0,
                          best := SplitEntry.ctor } : ThreadEntry)) := by
  refine ⟨by with_unfolding_all rfl, by with_unfolding_all rfl, by with_unfolding_all rfl, ?_⟩
  intro h
  have h1 := h [ThreadEntry.ctor 1] (by with_unfolding_all decide) (ThreadEntry.ctor 1)
    (List.mem_singleton.mpr rfl)
  have h2 : (ThreadEntry.ctor 1).last_fvalue = 0 := by rw [h1]
  simp [ThreadEntry.ctor] at h2

/-- C17 (amended): after a successful `InitData` on a freshly constructed builder with
`1 <= num_roots`, `qexpand` is `[0, .., num_roots-1]`, `snode` has exactly `num_roots`
entries `SplitEntry()` (all zero), there are `nthread` worker tables of exactly
`num_roots` entries `ThreadEntry()` each (sums zero, `best` all zero, `last_fvalue`
whatever the constructor left), and the indices of the following `UpdateSNode(qexpand)`
are in bounds: every `qexpand[j]`, every `j < qexpand.size()` and every `position[i]`
in every worker table, and every `j < qexpand.size()` in `snode`. -/
theorem ColTreeMaker.InitData_shapes (tree : RegTree) (param : TreeParamTrain)
    (grad hess : List ℚ) (smat : FMatrix) (root_index : List Nat) (b b1 : ColTreeMaker)
    (Shuffle : List Int → List Int) (nthread : Nat) (junk : ℚ)
    (hc : (ColTreeMaker.ctor tree param grad hess smat root_index).1 = Except.ok b)
    (h1 : 1 ≤ tree.num_roots) (h31 : tree.num_roots < 2 ^ 31)
    (hi : (b.InitData Shuffle nthread junk tree).1 = Except.ok b1) :
    b1.qexpand = (List.range tree.num_roots.toNat).map Int.ofNat ∧
    b1.snode = List.replicate tree.num_roots.toNat SplitEntry.ctor ∧
    b1.stemp =
      List.replicate nthread (List.replicate tree.num_roots.toNat (ThreadEntry.ctor junk)) ∧
    (∀ row ∈ b1.stemp,
      (∀ q ∈ b1.qexpand, 0 ≤ q ∧ q.toNat < row.length) ∧ b1.qexpand.length ≤ row.length ∧
      (∀ p ∈ b1.position, 0 ≤ p ∧ p.toNat < row.length)) ∧
    b1.qexpand.length ≤ b1.snode.length := by
  obtain ⟨hb, hgh, -, hroot, -⟩ := ColTreeMaker.ctor_eq_ok hc
  have hg : b.grad = grad := by rw [hb]
  have hri : b.root_index = root_index := by rw [hb]
  have hst : b.stemp = [] := by rw [hb]
  have hsn : b.snode = [] := by rw [hb]
  have hlen : b.root_index = [] ∨ b.root_index.length = b.grad.length := by
    rw [hg, hri, hgh]
    exact hroot
  obtain ⟨-, hall, rfl⟩ := ColTreeMaker.InitData_ok hlen hi
  obtain ⟨hq, hs, ht⟩ := ColTreeMaker.InitData.result_fresh b Shuffle nthread junk tree hst hsn
  obtain ⟨-, -, -, hpos⟩ := ColTreeMaker.InitData.result_position b Shuffle nthread junk tree
    hlen hall h1 h31
  refine ⟨hq, hs, ht, ?_, ?_⟩
  · intro row hrow
    rw [ht] at hrow
    have hrl : row.length = tree.num_roots.toNat := by
      rw [(List.mem_replicate.mp hrow).2, List.length_replicate]
    rw [hq, hrl]
    refine ⟨fun q hq2 => mem_range_ofNat hq2, by simp, ?_⟩
    intro p hp
    have := hpos p hp
    omega
  · rw [hq, hs]
    simp

/-- Witness of C17 (amended): the four-instance scenario with two workers. -/
theorem ColTreeMaker.InitData_shapes_witness :
    (ColTreeMaker.InitData.result scenarioBuilder id 2 0 freshTree).qexpand =
      (List.range freshTree.num_roots.toNat).map Int.ofNat ∧
    (ColTreeMaker.InitData.result scenarioBuilder id 2 0 freshTree).snode =
      List.replicate freshTree.num_roots.toNat SplitEntry.ctor ∧
    (ColTreeMaker.InitData.result scenarioBuilder id 2 0 freshTree).stemp =
      List.replicate 2 (List.replicate freshTree.num_roots.toNat (ThreadEntry.ctor 0)) ∧
    (∀ row ∈ (ColTreeMaker.InitData.result scenarioBuilder id 2 0 freshTree).stemp,
      (∀ q ∈ (ColTreeMaker.InitData.result scenarioBuilder id 2 0 freshTree).qexpand,
        0 ≤ q ∧ q.toNat < row.length) ∧
      (ColTreeMaker.InitData.result scenarioBuilder id 2 0 freshTree).qexpand.length ≤
        row.length ∧
      (∀ p ∈ (ColTreeMaker.InitData.result scenarioBuilder id 2 0 freshTree).position,
        0 ≤ p ∧ p.toNat < row.length)) ∧
    (ColTreeMaker.InitData.result scenarioBuilder id 2 0 freshTree).qexpand.length ≤
      (ColTreeMaker.InitData.result scenarioBuilder id 2 0 freshTree).snode.length :=
  ColTreeMaker.InitData_shapes freshTree (l2Param 1 0) scenarioGrad scenarioHess scenarioMat []
    scenarioBuilder (ColTreeMaker.InitData.result scenarioBuilder id 2 0 freshTree) id 2 0
    (by with_unfolding_all rfl) (by decide) (by decide) (by with_unfolding_all rfl)

/-! ## Aggregation right after `InitData`, and independence of the workers -/

theorem rowLen_replicate (T n t : Nat) (e : ThreadEntry) (ht : t < T) :
    rowLen (List.replicate T (List.replicate n e)) t = n := by
  unfold rowLen
  simp [List.getElem?_replicate, ht]

theorem ColTreeMaker.InitData.result_inRange (b : ColTreeMaker)
    (Shuffle : List Int → List Int) (nthread : Nat) (junk : ℚ) (tree : RegTree)
    (tid : Nat → Nat)
    (hlen : b.root_index = [] ∨ b.root_index.length = b.grad.length)
    (hall : ∀ r ∈ b.root_index, r < toUInt32 tree.num_roots)
    (h1 : 1 ≤ tree.num_roots) (h31 : tree.num_roots < 2 ^ 31)
    (hst : b.stemp = []) (hsn : b.snode = []) (hgh : b.grad.length = b.hess.length)
    (hroots : ∀ r : Nat, r < tree.num_roots.toNat →
      ∃ nd, tree.nodes[r]? = some nd ∧ nd.is_root = true)
    (htid : ∀ i : Nat, i < b.grad.length → tid i < nthread) :
    ColTreeMaker.UpdateSNode.InRange (ColTreeMaker.InitData.result b Shuffle nthread junk tree)
      tid tree ((List.range tree.num_roots.toNat).map Int.ofNat) := by
  obtain ⟨-, hs, ht⟩ := ColTreeMaker.InitData.result_fresh b Shuffle nthread junk tree hst hsn
  obtain ⟨hpl, -, -, hpos⟩ := ColTreeMaker.InitData.result_position b Shuffle nthread junk tree
    hlen hall h1 h31
  have hgr : (ColTreeMaker.InitData.result b Shuffle nthread junk tree).grad = b.grad := rfl
  have hhr : (ColTreeMaker.InitData.result b Shuffle nthread junk tree).hess = b.hess := rfl
  have hn1 : 1 ≤ tree.num_roots.toNat := by omega
  have hnodes : tree.num_roots.toNat ≤ tree.nodes.length := by
    obtain ⟨nd, hnd, -⟩ := hroots (tree.num_roots.toNat - 1) (by omega)
    have := (List.getElem?_eq_some.mp hnd).1
    omega
  refine ⟨?_, ?_, by simpa using hnodes, by rw [hs]; simp, ?_⟩
  · intro row hrow
    rw [ht] at hrow
    have hrl : row.length = tree.num_roots.toNat := by
      rw [(List.mem_replicate.mp hrow).2, List.length_replicate]
    rw [hrl]
    exact ⟨fun q hq2 => mem_range_ofNat hq2, by simp⟩
  · intro i hi2 h0
    have hig : i < b.grad.length := by
      rw [hpl] at hi2
      exact hi2
    have hp := hpos _ (List.getElem_mem hi2)
    rw [hgr, hhr, ht, rowLen_replicate _ _ _ _ (htid i hig)]
    refine ⟨hig, by rw [← hgh]; exact hig, ?_⟩
    omega
  · intro j hj hjq hnr
    have hjn : j < tree.num_roots.toNat := by simpa using hjq
    obtain ⟨nd, hnd, hroot2⟩ := hroots j hjn
    rw [List.getElem?_eq_getElem hj] at hnd
    cases hnd
    rw [hroot2] at hnr
    exact absurd hnr (by simp)

theorem nodeSum_replicate (n : Nat) (v : ℚ) :
    nodeSum (List.replicate n (0 : Int)) (List.replicate n v) 0 = (n : ℚ) * v := by
  induction n with
  | zero => simp [nodeSum_nil_left]
  | succ n ih =>
    rw [List.replicate_succ, List.replicate_succ, nodeSum_cons, ih, if_pos rfl]
    push_cast
    ring

theorem uniformBuilder_update (N : Nat) (hN : N % 2 ^ 32 = 0) :
    ∃ b2 e, (ColTreeMaker.InitData.result (uniformBuilder N) id 1 0 freshTree).UpdateSNode
        (fun _ => 0) freshTree
        (ColTreeMaker.InitData.result (uniformBuilder N) id 1 0 freshTree).qexpand = some b2 ∧
      b2.snode[0]? = some e ∧ e.weight = 0 ∧ e.loss_gain = 0 := by
  have hlen : (uniformBuilder N).root_index = [] ∨
      (uniformBuilder N).root_index.length = (uniformBuilder N).grad.length := Or.inl rfl
  have hall : ∀ r ∈ (uniformBuilder N).root_index, r < toUInt32 freshTree.num_roots := by
    intro r hr
    exact absurd hr (List.not_mem_nil r)
  have h1 : 1 ≤ freshTree.num_roots := by decide
  have h31 : freshTree.num_roots < 2 ^ 31 := by decide
  have hgl : (uniformBuilder N).grad.length = N := List.length_replicate N 1
  have hroots : ∀ r : Nat, r < freshTree.num_roots.toNat →
      ∃ nd, freshTree.nodes[r]? = some nd ∧ nd.is_root = true := by
    intro r hr
    have hr0 : r = 0 := by
      have : freshTree.num_roots.toNat = 1 := rfl
      omega
    subst hr0
    exact ⟨leafNode none, rfl, rfl⟩
  have hr := ColTreeMaker.InitData.result_inRange (uniformBuilder N) id 1 0 freshTree
    (fun _ => 0) hlen hall h1 h31 rfl rfl
    (by rw [hgl]; exact (List.length_replicate N 1).symm) hroots (fun _ _ => Nat.zero_lt_one)
  have hq : (ColTreeMaker.InitData.result (uniformBuilder N) id 1 0 freshTree).qexpand =
      (List.range 1).map Int.ofNat := rfl
  rw [hq]
  obtain ⟨b2, hb2⟩ := ColTreeMaker.UpdateSNode_succeeds _ (fun _ => 0) freshTree _ hr
  obtain ⟨nd, e, e1, hnd, -, he1, hroot, -⟩ :=
    ColTreeMaker.UpdateSNode_range_get hb2 0 Nat.zero_lt_one
  have hnd2 : nd.is_root = true := by
    have h0 : freshTree.nodes[0]? = some (leafNode none) := rfl
    rw [h0] at hnd
    cases hnd
    rfl
  obtain ⟨hpl, -, -, -⟩ := ColTreeMaker.InitData.result_position (uniformBuilder N) id 1 0
    freshTree hlen hall h1 h31
  have htake : (ColTreeMaker.InitData.result (uniformBuilder N) id 1 0 freshTree).position.take
      (ColTreeMaker.UpdateSNode.ndata
        (ColTreeMaker.InitData.result (uniformBuilder N) id 1 0 freshTree)) = [] := by
    unfold ColTreeMaker.UpdateSNode.ndata
    rw [hpl, hgl, hN, List.take_zero]
  have he := hroot hnd2
  rw [htake, nodeSum_nil_left, nodeSum_nil_left] at he
  refine ⟨b2, e1, hb2, he1, ?_, ?_⟩
  · rw [he]
    show (l2Param 1 1).CalcWeight 0 0 0 = 0
    simp [l2Param]
  · rw [he]
    show (l2Param 1 1).CalcGain 0 0 0 = 0
    simp [l2Param]

theorem uniformBuilder_claimed (N : Nat) :
    (l2Param 1 1).CalcWeight
      (nodeSum (ColTreeMaker.InitData.result (uniformBuilder N) id 1 0 freshTree).position
        (List.replicate N 1) 0)
      (nodeSum (ColTreeMaker.InitData.result (uniformBuilder N) id 1 0 freshTree).position
        (List.replicate N 1) 0) 0 = -(N : ℚ) / ((N : ℚ) + 1) := by
  have hpos : (ColTreeMaker.InitData.result (uniformBuilder N) id 1 0 freshTree).position =
      List.replicate N (0 : Int) := by
    have hgl : (uniformBuilder N).grad.length = N := List.length_replicate N 1
    show (if (uniformBuilder N).root_index.length == 0
      then List.replicate (uniformBuilder N).grad.length (0 : Int)
      else (uniformBuilder N).root_index.map toInt32) = _
    rw [hgl]
    rfl
  rw [hpos, nodeSum_replicate]
  simp [l2Param]

theorem uniformBuilder_ctor (N : Nat) :
    (ColTreeMaker.ctor freshTree (l2Param 1 1) (List.replicate N 1) (List.replicate N 1)
      (uniformMat N) []).1 = Except.ok (uniformBuilder N) := by
  simp [ColTreeMaker.ctor, Assert, bind, Except.bind, pure, Except.pure, uniformMat,
    uniformBuilder]

theorem uniformBuilder_init (N : Nat) :
    ((uniformBuilder N).InitData id 1 0 freshTree).1 =
      Except.ok (ColTreeMaker.InitData.result (uniformBuilder N) id 1 0 freshTree) := by
  have hall : ∀ r ∈ (uniformBuilder N).root_index, r < toUInt32 freshTree.num_roots :=
    fun r hr => absurd hr (List.not_mem_nil r)
  rw [ColTreeMaker.InitData_eq (uniformBuilder N) id 1 0 freshTree (Or.inl rfl) (by decide)]
  rw [if_pos hall]

/-- C16 (as stated, refuted): with 2^32 instances, all at the single root and all with
gradient 1 and hessian 1 (L2 strength 1), the constructor and `InitData` succeed and
`UpdateSNode(qexpand)` returns, but its first loop is bounded by
`ndata = unsigned(2^32) = 0` and visits no instance: the root gets weight 0 and loss 0,
while the exact sums `G = H = 2^32` give the weight `-2^32 / (2^32 + 1)`. -/
theorem ColTreeMaker.UpdateSNode_depth0_truncated :
    (ColTreeMaker.ctor freshTree (l2Param 1 1) (List.replicate (2 ^ 32) 1)
      (List.replicate (2 ^ 32) 1) (uniformMat (2 ^ 32)) []).1 =
      Except.ok (uniformBuilder (2 ^ 32)) ∧
    ((uniformBuilder (2 ^ 32)).InitData id 1 0 freshTree).1 =
      Except.ok (ColTreeMaker.InitData.result (uniformBuilder (2 ^ 32)) id 1 0 freshTree) ∧
    (∃ b2 e, (ColTreeMaker.InitData.result (uniformBuilder (2 ^ 32)) id 1 0
          freshTree).UpdateSNode (fun _ => 0) freshTree
        (ColTreeMaker.InitData.result (uniformBuilder (2 ^ 32)) id 1 0 freshTree).qexpand =
          some b2 ∧
      b2.snode[0]? = some e ∧ e.weight = 0 ∧ e.loss_gain = 0) ∧
    (l2Param 1 1).CalcWeight
      (nodeSum (ColTreeMaker.InitData.result (uniformBuilder (2 ^ 32)) id 1 0 freshTree).position
        (List.replicate (2 ^ 32) 1) 0)
      (nodeSum (ColTreeMaker.InitData.result (uniformBuilder (2 ^ 32)) id 1 0 freshTree).position
        (List.replicate (2 ^ 32) 1) 0) 0 = -((2 ^ 32 : Nat) : ℚ) / (((2 ^ 32 : Nat) : ℚ) + 1) ∧
    -((2 ^ 32 : Nat) : ℚ) / (((2 ^ 32 : Nat) : ℚ) + 1) ≠ 0 :=
  ⟨uniformBuilder_ctor (2 ^ 32), uniformBuilder_init (2 ^ 32),
    uniformBuilder_update (2 ^ 32) (by norm_num), uniformBuilder_claimed (2 ^ 32),
    by norm_num⟩

/-- C16 (amended): at depth 0, with fewer than 2^32 instances and in exact arithmetic
(no floating-point operation of the call rounds), the aggregation is exact. After a successful `InitData` on a freshly
constructed builder with `1 <= num_roots`, when the tree nodes `0 .. num_roots-1` are
roots and every instance is given to one of the `nthread` workers, `UpdateSNode(qexpand)`
returns and sets, for every root `r`, `snode[r].weight = CalcWeight(G_r, H_r, 0)` and
`snode[r].loss_gain = CalcGain(G_r, H_r, 0)`, where `G_r` and `H_r` are the sums of
`grad[i]` and `hess[i]` over the instances with `position[i] == r`. -/
theorem ColTreeMaker.UpdateSNode_depth0 (tree : RegTree) (param : TreeParamTrain)
    (grad hess : List ℚ) (smat : FMatrix) (root_index : List Nat) (b b1 : ColTreeMaker)
    (Shuffle : List Int → List Int) (nthread : Nat) (junk : ℚ) (tid : Nat → Nat)
    (hc : (ColTreeMaker.ctor tree param grad hess smat root_index).1 = Except.ok b)
    (h1 : 1 ≤ tree.num_roots) (h31 : tree.num_roots < 2 ^ 31)
    (hN : grad.length < 2 ^ 32)
    (hi : (b.InitData Shuffle nthread junk tree).1 = Except.ok b1)
    (hroots : ∀ r : Nat, r < tree.num_roots.toNat →
      ∃ nd, tree.nodes[r]? = some nd ∧ nd.is_root = true)
    (htid : ∀ i : Nat, i < grad.length → tid i < nthread) :
    ∃ b2, b1.UpdateSNode tid tree b1.qexpand = some b2 ∧
      ∀ r : Nat, r < tree.num_roots.toNat → ∃ e, b2.snode[r]? = some e ∧
        e.weight = param.CalcWeight (nodeSum b1.position grad r) (nodeSum b1.position hess r) 0 ∧
        e.loss_gain = param.CalcGain (nodeSum b1.position grad r) (nodeSum b1.position hess r) 0 := by
  obtain ⟨hb, hgh, -, hroot, -⟩ := ColTreeMaker.ctor_eq_ok hc
  have hg : b.grad = grad := by rw [hb]
  have hh : b.hess = hess := by rw [hb]
  have hpa : b.param = param := by rw [hb]
  have hri : b.root_index = root_index := by rw [hb]
  have hst : b.stemp = [] := by rw [hb]
  have hsn : b.snode = [] := by rw [hb]
  have hlen : b.root_index = [] ∨ b.root_index.length = b.grad.length := by
    rw [hg, hri, hgh]
    exact hroot
  obtain ⟨-, hall, rfl⟩ := ColTreeMaker.InitData_ok hlen hi
  obtain ⟨hq, -, -⟩ := ColTreeMaker.InitData.result_fresh b Shuffle nthread junk tree hst hsn
  obtain ⟨hpl, -, -, -⟩ := ColTreeMaker.InitData.result_position b Shuffle nthread junk tree
    hlen hall h1 h31
  have hgr : (ColTreeMaker.InitData.result b Shuffle nthread junk tree).grad = grad := hg
  have hhr : (ColTreeMaker.InitData.result b Shuffle nthread junk tree).hess = hess := hh
  have hpr : (ColTreeMaker.InitData.result b Shuffle nthread junk tree).param = param := hpa
  have hr := ColTreeMaker.InitData.result_inRange b Shuffle nthread junk tree tid hlen hall
    h1 h31 hst hsn (by rw [hg, hh]; exact hgh) hroots (by rw [hg]; exact htid)
  have htake := ColTreeMaker.UpdateSNode.take_ndata
    (ColTreeMaker.InitData.result b Shuffle nthread junk tree) (by rw [hpl, hg]; exact hN)
  rw [hq]
  obtain ⟨b2, hb2⟩ := ColTreeMaker.UpdateSNode_succeeds _ tid tree _ hr
  refine ⟨b2, hb2, ?_⟩
  intro r hrn
  obtain ⟨nd, e, e1, hnd, -, he1, hroot2, -⟩ := ColTreeMaker.UpdateSNode_range_get hb2 r hrn
  obtain ⟨nd2, hnd2, hr2⟩ := hroots r hrn
  rw [hnd] at hnd2
  cases hnd2
  have he := hroot2 hr2
  rw [htake, hgr, hhr, hpr] at he
  refine ⟨e1, he1, ?_, ?_⟩
  · rw [he]
  · rw [he]

/-- Witness of C16 (amended): three instances with gradients 1, 2, 4 assigned to the
roots 0, 1, 0 of a two-root forest, two workers: the roots get `G = 5`, `H = 2` and
`G = 2`, `H = 1`. -/
theorem ColTreeMaker.UpdateSNode_depth0_witness :
    ∃ b2, (ColTreeMaker.InitData.result rootedBuilder id 2 0 twoRootTree).UpdateSNode
        (fun i => i % 2) twoRootTree
        (ColTreeMaker.InitData.result rootedBuilder id 2 0 twoRootTree).qexpand = some b2 ∧
      ∀ r : Nat, r < twoRootTree.num_roots.toNat → ∃ e, b2.snode[r]? = some e ∧
        e.weight = (l2Param 1 0).CalcWeight
          (nodeSum (ColTreeMaker.InitData.result rootedBuilder id 2 0 twoRootTree).position
            [1, 2, 4] r)
          (nodeSum (ColTreeMaker.InitData.result rootedBuilder id 2 0 twoRootTree).position
            [1, 1, 1] r) 0 ∧
        e.loss_gain = (l2Param 1 0).CalcGain
          (nodeSum (ColTreeMaker.InitData.result rootedBuilder id 2 0 twoRootTree).position
            [1, 2, 4] r)
          (nodeSum (ColTreeMaker.InitData.result rootedBuilder id 2 0 twoRootTree).position
            [1, 1, 1] r) 0 :=
  ColTreeMaker.UpdateSNode_depth0 twoRootTree (l2Param 1 0) [1, 2, 4] [1, 1, 1]
    rootedBuilder.smat [0, 1, 0] rootedBuilder
    (ColTreeMaker.InitData.result rootedBuilder id 2 0 twoRootTree) id 2 0
    (fun i => i % 2) (by with_unfolding_all rfl) (by decide) (by decide) (by decide)
    (by with_unfolding_all rfl)
    (by
      intro r hr
      have hr2 : r < 2 := hr
      rcases Nat.lt_or_ge r 1 with h | h
      · have hr0 : r = 0 := by omega
        subst hr0
        exact ⟨leafNode none, rfl, rfl⟩
      · have hr1 : r = 1 := by omega
        subst hr1
        exact ⟨leafNode none, rfl, rfl⟩)
    (fun i _ => Nat.mod_lt i (by decide))

theorem ColTreeMaker.CleanSTemp.outer_colSum_other (q : List Int) (f : ThreadEntry → ℚ)
    (j : Nat) (hj : (j : Int) ∉ q) :
    ∀ (st cs : List (List ThreadEntry)), ColTreeMaker.CleanSTemp.outer q st = some cs →
      colSum f cs j = colSum f st j
  | [], cs, h => by
    simp only [ColTreeMaker.CleanSTemp.outer, Option.some.injEq] at h
    subst h
    rfl
  | row :: rest, cs, h => by
    simp only [ColTreeMaker.CleanSTemp.outer, Option.bind_eq_some, Option.map_eq_some'] at h
    obtain ⟨row1, h1, rest1, h2, rfl⟩ := h
    have ih := ColTreeMaker.CleanSTemp.outer_colSum_other q f j hj rest rest1 h2
    have hrow := (ColTreeMaker.CleanSTemp.inner_get q row row1 h1).2 j
    rw [if_neg hj] at hrow
    unfold colSum at ih ⊢
    simp only [List.map_cons, List.sum_cons, hrow, ih]

theorem ColTreeMaker.UpdateSNode_total_gen {b b1 : ColTreeMaker} {tid : Nat → Nat}
    {tree : RegTree} {q : List Int} (h : b.UpdateSNode tid tree q = some b1)
    (j : Nat) (tot : ℚ × ℚ)
    (htot : ColTreeMaker.UpdateSNode.total j b1.stemp (0, 0) = some tot) :
    tot = ((if (j : Int) ∈ q then 0 else colSum ThreadEntry.sum_grad b.stemp j) +
             nodeSum (b.position.take (ColTreeMaker.UpdateSNode.ndata b)) b.grad j,
           (if (j : Int) ∈ q then 0 else colSum ThreadEntry.sum_hess b.stemp j) +
             nodeSum (b.position.take (ColTreeMaker.UpdateSNode.ndata b)) b.hess j) := by
  by_cases hj : (j : Int) ∈ q
  · rw [if_pos hj, if_pos hj, zero_add, zero_add]
    exact ColTreeMaker.UpdateSNode_total h j hj tot htot
  · obtain ⟨cs, st, sn, hc, hst, -, rfl⟩ := ColTreeMaker.UpdateSNode_eq_some h
    obtain ⟨-, hg, hh⟩ :=
      ColTreeMaker.UpdateSNode.step1_colSum tid b.grad b.hess j
        (b.position.take (ColTreeMaker.UpdateSNode.ndata b)) 0 cs st hst
    rw [ColTreeMaker.UpdateSNode.total_eq j st (0, 0) tot htot, hg, hh,
      ColTreeMaker.CleanSTemp.outer_colSum_other q _ j hj b.stemp cs hc,
      ColTreeMaker.CleanSTemp.outer_colSum_other q _ j hj b.stemp cs hc, if_neg hj, if_neg hj]
    simp

theorem ColTreeMaker.UpdateSNode.node_congr (param : TreeParamTrain) (tree : RegTree)
    (st st1 : List (List ThreadEntry)) (j : Nat) (sn : List SplitEntry)
    (h : ColTreeMaker.UpdateSNode.total j st (0, 0) = ColTreeMaker.UpdateSNode.total j st1 (0, 0)) :
    ColTreeMaker.UpdateSNode.node param tree st j sn =
      ColTreeMaker.UpdateSNode.node param tree st1 j sn := by
  unfold ColTreeMaker.UpdateSNode.node
  rw [h]

theorem ColTreeMaker.UpdateSNode.step2_congr (param : TreeParamTrain) (tree : RegTree)
    (st st1 : List (List ThreadEntry)) :
    ∀ (n j : Nat) (sn : List SplitEntry),
      (∀ m, j ≤ m → m < j + n → ColTreeMaker.UpdateSNode.total m st (0, 0) =
        ColTreeMaker.UpdateSNode.total m st1 (0, 0)) →
      ColTreeMaker.UpdateSNode.step2 param tree st n j sn =
        ColTreeMaker.UpdateSNode.step2 param tree st1 n j sn
  | 0, _, _, _ => rfl
  | n + 1, j, sn, h => by
    simp only [ColTreeMaker.UpdateSNode.step2]
    rw [ColTreeMaker.UpdateSNode.node_congr param tree st st1 j sn (h j (le_refl j) (by omega))]
    congr 1
    funext sn1
    exact ColTreeMaker.UpdateSNode.step2_congr param tree st st1 n (j + 1) sn1
      (fun m h1 h2 => h m (by omega) (by omega))

/-- C15: the result of `UpdateSNode` does not depend on the workers. Take a builder and
a second set of worker tables, of any number, that holds the same statistics (the same
total per entry, which matters only at the entries that are reduced without having been
cleared), and any two assignments of the instances to the workers of either set. If the
indices are in range in both runs, both return and produce the same `snode` (weights
and loss values). A single worker accumulating all instances is the case of one table
and the constant assignment. -/
theorem ColTreeMaker.UpdateSNode_worker_independent (b : ColTreeMaker)
    (st1 : List (List ThreadEntry)) (tid tid1 : Nat → Nat) (tree : RegTree) (q : List Int)
    (hsum : ∀ j : Nat, j < q.length → (j : Int) ∉ q →
      colSum ThreadEntry.sum_grad st1 j = colSum ThreadEntry.sum_grad b.stemp j ∧
      colSum ThreadEntry.sum_hess st1 j = colSum ThreadEntry.sum_hess b.stemp j)
    (hr : ColTreeMaker.UpdateSNode.InRange b tid tree q)
    (hr1 : ColTreeMaker.UpdateSNode.InRange ({ b with stemp := st1 } : ColTreeMaker) tid1 tree q) :
    ∃ b1 b2, b.UpdateSNode tid tree q = some b1 ∧
      ({ b with stemp := st1 } : ColTreeMaker).UpdateSNode tid1 tree q = some b2 ∧
      b2.snode = b1.snode := by
  obtain ⟨b1, hb1⟩ := ColTreeMaker.UpdateSNode_succeeds b tid tree q hr
  obtain ⟨b2, hb2⟩ := ColTreeMaker.UpdateSNode_succeeds _ tid1 tree q hr1
  refine ⟨b1, b2, hb1, hb2, ?_⟩
  obtain ⟨cs, st, sn, -, -, hsn, hbe1⟩ := ColTreeMaker.UpdateSNode_eq_some hb1
  obtain ⟨cs2, st2, sn2, -, -, hsn2, hbe2⟩ := ColTreeMaker.UpdateSNode_eq_some hb2
  have hst : b1.stemp = st := by rw [hbe1]
  have hst2 : b2.stemp = st2 := by rw [hbe2]
  have htotal : ∀ m, 0 ≤ m → m < 0 + q.length →
      ColTreeMaker.UpdateSNode.total m st2 (0, 0) = ColTreeMaker.UpdateSNode.total m st (0, 0) := by
    intro m _ hm
    have hm' : m < q.length := by omega
    obtain ⟨-, -, hidx⟩ := ColTreeMaker.UpdateSNode.step2_get b.param tree st q.length 0 b.snode sn hsn
    obtain ⟨-, -, hidx2⟩ := ColTreeMaker.UpdateSNode.step2_get b.param tree st2 q.length 0 b.snode sn2 hsn2
    obtain ⟨tot, -, -, -, htot, -⟩ := hidx m (Nat.zero_le m) hm
    obtain ⟨tot2, -, -, -, htot2, -⟩ := hidx2 m (Nat.zero_le m) hm
    have e1 := ColTreeMaker.UpdateSNode_total_gen hb1 m tot (by rw [hst]; exact htot)
    have e2 := ColTreeMaker.UpdateSNode_total_gen hb2 m tot2 (by rw [hst2]; exact htot2)
    rw [htot, htot2, e1, e2]
    by_cases hmq : (m : Int) ∈ q
    · simp only [if_pos hmq, ColTreeMaker.UpdateSNode.ndata]
    · obtain ⟨hg, hh⟩ := hsum m hm' hmq
      simp only [if_neg hmq, hg, hh, ColTreeMaker.UpdateSNode.ndata]
  have hcongr := ColTreeMaker.UpdateSNode.step2_congr b.param tree st2 st q.length 0 b.snode htotal
  have hsn2' : ColTreeMaker.UpdateSNode.step2 b.param tree st2 q.length 0 b.snode = some sn2 := hsn2
  rw [hcongr, hsn] at hsn2'
  have hs12 : sn = sn2 := Option.some.inj hsn2'
  rw [hbe1, hbe2]
  exact hs12.symm

/-- Witness of C15: the depth-1 state with two workers (instances 0 and 2 on worker 0,
instance 1 on worker 1) against a single worker accumulating all instances. -/
theorem ColTreeMaker.UpdateSNode_worker_independent_witness :
    ∃ b1 b2, (depth1TwoWorkers (l2Param 2 1) [1, 2, 2]).UpdateSNode (fun i => i % 2) depth1Tree
        [1, 2] = some b1 ∧
      ({ depth1TwoWorkers (l2Param 2 1) [1, 2, 2] with
          stemp := (depth1Builder (l2Param 2 1) [1, 2, 2]).stemp } : ColTreeMaker).UpdateSNode
        (fun _ => 0) depth1Tree [1, 2] = some b2 ∧
      b2.snode = b1.snode :=
  ColTreeMaker.UpdateSNode_worker_independent (depth1TwoWorkers (l2Param 2 1) [1, 2, 2])
    (depth1Builder (l2Param 2 1) [1, 2, 2]).stemp (fun i => i % 2) (fun _ => 0) depth1Tree [1, 2]
    (by
      intro j hj hq
      have hj2 : j < 2 := hj
      have hj0 : j = 0 := by
        rcases Nat.lt_or_ge j 1 with h | h
        · omega
        · have : j = 1 := by omega
          subst this
          exact absurd (by decide) hq
      subst hj0
      constructor <;> with_unfolding_all decide)
    (by unfold ColTreeMaker.UpdateSNode.InRange; decide)
    (by unfold ColTreeMaker.UpdateSNode.InRange; decide)

end booster
end xgboost
